import Mathlib

/-!
Verification of the kalpler card-game server engines (Hearts, King, Spades).
Shallow embedding of `src/server/shared/cards.js`, `src/server/games/HeartsGame.js`,
`src/server/games/KingGame.js` and the Spades engine, with theorems settling the
spec claims about trick resolution, legality, scoring and contract quotas.
-/

namespace Kalpler

/-- Card suits, from `SUITS` in cards.js. -/
inductive Suit
  | hearts | diamonds | clubs | spades
deriving DecidableEq, Repr, Fintype

/-- Card ranks 2..A, from `RANKS` in cards.js. -/
inductive Rank
  | r2 | r3 | r4 | r5 | r6 | r7 | r8 | r9 | r10 | rJ | rQ | rK | rA
deriving DecidableEq, Repr, Fintype

/-- Numeric rank values, `RANK_VALUES` in cards.js. -/
def rankValue : Rank → ℕ
  | .r2 => 2 | .r3 => 3 | .r4 => 4 | .r5 => 5 | .r6 => 6 | .r7 => 7 | .r8 => 8
  | .r9 => 9 | .r10 => 10 | .rJ => 11 | .rQ => 12 | .rK => 13 | .rA => 14

/-- A card is its suit and rank; the `display` string in the source is derived
presentation data and is omitted. -/
structure Card where
  suit : Suit
  rank : Rank
deriving DecidableEq, Repr

/-- `cardEquals` from cards.js: componentwise equality. -/
def cardEquals (a b : Card) : Bool :=
  a.suit == b.suit && a.rank == b.rank

/-- One play inside a trick: `{ seat, card }` entries of `currentTrick`. -/
structure Play where
  seat : Fin 4
  card : Card
deriving DecidableEq, Repr

/-- `getCardsOfSuit` from cards.js. -/
def getCardsOfSuit (hand : List Card) (suit : Suit) : List Card :=
  hand.filter (fun c => c.suit == suit)

/-- The default `suitOrder` used by `sortHand` in cards.js. -/
def suitOrderVal : Suit → ℕ
  | .clubs => 0 | .diamonds => 1 | .spades => 2 | .hearts => 3

/-- `sortHand` from cards.js: sort by suit order then rank value. -/
def sortHand (hand : List Card) : List Card :=
  hand.mergeSort (fun a b =>
    decide (suitOrderVal a.suit < suitOrderVal b.suit ∨
      (suitOrderVal a.suit = suitOrderVal b.suit ∧ rankValue a.rank ≤ rankValue b.rank)))

/-- `determineTrickWinner` from cards.js (no-trump, Hearts style).  The JS
accesses `trick[0]` unconditionally; callers always pass a 4-play trick, and
the empty case (which would throw in JS) returns seat 0 here. -/
def determineTrickWinner (trick : List Play) : Fin 4 :=
  match trick with
  | [] => 0
  | t0 :: _ =>
    let ledSuit := t0.card.suit
    (trick.foldl
      (fun wp p =>
        if p.card.suit = ledSuit ∧ rankValue wp.card.rank < rankValue p.card.rank then p
        else wp) t0).seat

/-- The loop body of `determineTrickWinnerWithTrump`: the accumulator is the
current `(winningPlay, winnerHasTrump)` pair. -/
def trickStepTrump (ledSuit trumpSuit : Suit) (acc : Play × Bool) (p : Play) : Play × Bool :=
  let wp := acc.1
  let wTr := acc.2
  let pTr := p.card.suit == trumpSuit
  if pTr && !wTr then (p, true)
  else if pTr && wTr then
    (if rankValue wp.card.rank < rankValue p.card.rank then (p, true) else acc)
  else if !pTr && !wTr then
    (if p.card.suit == ledSuit && decide (rankValue wp.card.rank < rankValue p.card.rank)
      then (p, false) else acc)
  else acc

/-- `determineTrickWinnerWithTrump` from cards.js (King/Spades style). -/
def determineTrickWinnerWithTrump (trick : List Play) (trumpSuit : Suit) : Fin 4 :=
  match trick with
  | [] => 0
  | t0 :: rest =>
    let ledSuit := t0.card.suit
    ((rest.foldl (trickStepTrump ledSuit trumpSuit) (t0, t0.card.suit == trumpSuit)).1).seat

/-- The property claimed of the two trick-winner functions for a 4-card trick
`t0 :: rest`: without trump the winner is the seat of a maximal-rank card of
the led suit, and with trump the winner is the seat of a maximal-rank trump
card when any trump was played, else of a maximal-rank led-suit card. -/
def trickWinnerSpec (t0 : Play) (rest : List Play) (trump : Suit) : Prop :=
  (∃ p, (p = t0 ∨ p ∈ rest) ∧ p.seat = determineTrickWinner (t0 :: rest) ∧
    p.card.suit = t0.card.suit ∧
    ∀ q, (q = t0 ∨ q ∈ rest) → q.card.suit = t0.card.suit →
      rankValue q.card.rank ≤ rankValue p.card.rank) ∧
  ((∃ q, (q = t0 ∨ q ∈ rest) ∧ q.card.suit = trump) →
    ∃ p, (p = t0 ∨ p ∈ rest) ∧ p.seat = determineTrickWinnerWithTrump (t0 :: rest) trump ∧
      p.card.suit = trump ∧
      ∀ q, (q = t0 ∨ q ∈ rest) → q.card.suit = trump →
        rankValue q.card.rank ≤ rankValue p.card.rank) ∧
  ((∀ q, (q = t0 ∨ q ∈ rest) → q.card.suit ≠ trump) →
    ∃ p, (p = t0 ∨ p ∈ rest) ∧ p.seat = determineTrickWinnerWithTrump (t0 :: rest) trump ∧
      p.card.suit = t0.card.suit ∧
      ∀ q, (q = t0 ∨ q ∈ rest) → q.card.suit = t0.card.suit →
        rankValue q.card.rank ≤ rankValue p.card.rank)

/-! ### Hearts engine (`src/server/games/HeartsGame.js`) -/

/-- Hearts phases (`this.phase`). -/
inductive HPhase
  | dealing | passing | playing | roundEnd
deriving DecidableEq, Repr

/-- Pass directions (`getPassDirection`). -/
inductive PassDir
  | left | right | across | hold
deriving DecidableEq, Repr

/-- `getPassDirection(roundNumber)` from HeartsGame.js. -/
def getPassDirection (roundNumber : ℕ) : PassDir :=
  match (roundNumber - 1) % 4 with
  | 0 => .left
  | 1 => .right
  | 2 => .across
  | _ => .hold

/-- `getReceiverIndex(giverIndex, direction)` from HeartsGame.js; the JS
`switch` default (used for `hold`) returns the giver. -/
def getReceiverIndex (giver : Fin 4) : Option PassDir → Fin 4
  | some .left => giver + 1
  | some .right => giver + 3
  | some .across => giver + 2
  | _ => giver

/-- State of the `HeartsGame` class (timers, managed outside the engine, are
omitted). -/
structure HeartsGame where
  hands : Fin 4 → List Card
  roundNumber : ℕ
  phase : HPhase
  passDirection : Option PassDir
  passes : Fin 4 → Option (List Card)
  currentTrick : List Play
  currentPlayer : Fin 4
  heartsBroken : Bool
  tricksTaken : Fin 4 → List (List Play)
  roundScores : Fin 4 → ℕ
  cumulativeScores : Fin 4 → ℕ
  lastTrick : Option (List Play)
  tricksPlayed : ℕ
  endingScore : ℕ
deriving DecidableEq

/-- `moonShotType` values in `completeRound`. -/
inductive MoonType
  | gave | took
deriving DecidableEq, Repr

/-- Result of `submitPass`. -/
inductive HPassOut
  | err (msg : String)
  | ok (allPassed : Bool)
deriving DecidableEq, Repr

/-- Result objects returned by `playCard` / `completeTrick` / `completeRound`. -/
inductive HPlayOut
  | err (msg : String)
  | played
  | trickDone (winner : Fin 4) (points : ℕ)
  | roundDone (winner : Fin 4) (points : ℕ)
      (roundScores cumulativeScores : Fin 4 → ℕ)
      (moonShooter : Option (Fin 4)) (moonShotType : Option MoonType)
      (gameOver : Bool) (gameWinner : Option (Fin 4))
deriving DecidableEq

/-- `success` field of a play result: every non-error branch of the source
returns `success: true`. -/
def HPlayOut.isSuccess : HPlayOut → Bool
  | .err _ => false
  | _ => true

/-- `gameOver` field of a round-end result. -/
def HPlayOut.isGameOver : HPlayOut → Bool
  | .roundDone _ _ _ _ _ _ go _ => go
  | _ => false

/-- `gameWinner` field of a round-end result. -/
def HPlayOut.gameWinner? : HPlayOut → Option (Fin 4)
  | .roundDone _ _ _ _ _ _ _ w => w
  | _ => none

/-- `findTwoOfClubsPlayer` from HeartsGame.js. -/
def HeartsGame.findTwoOfClubsPlayer (g : HeartsGame) : Fin 4 :=
  if (g.hands 0).any (fun c => c.suit == .clubs && c.rank == .r2) then 0
  else if (g.hands 1).any (fun c => c.suit == .clubs && c.rank == .r2) then 1
  else if (g.hands 2).any (fun c => c.suit == .clubs && c.rank == .r2) then 2
  else if (g.hands 3).any (fun c => c.suit == .clubs && c.rank == .r2) then 3
  else 0

/-- Number of submitted passes, `Object.keys(this.passes).length`. -/
def HeartsGame.countPasses (g : HeartsGame) : ℕ :=
  (if (g.passes 0).isSome then 1 else 0) + (if (g.passes 1).isSome then 1 else 0) +
    (if (g.passes 2).isSome then 1 else 0) + (if (g.passes 3).isSome then 1 else 0)

/-- `executeCardExchange` from HeartsGame.js: each seat's pass goes to
`getReceiverIndex(seat, direction)`, hands are filtered, extended and
re-sorted, and play starts at the holder of the 2♣. -/
def HeartsGame.executeCardExchange (g : HeartsGame) : HeartsGame :=
  let received : Fin 4 → List Card :=
    (List.finRange 4).foldl
      (fun acc i => Function.update acc (getReceiverIndex i g.passDirection)
        ((g.passes i).getD []))
      (fun _ => [])
  let newHands : Fin 4 → List Card := fun i =>
    sortHand (((g.hands i).filter
      (fun c => !((g.passes i).getD []).any (fun p => cardEquals c p))) ++ received i)
  let g1 := { g with hands := newHands, phase := .playing, passes := fun _ => none }
  { g1 with currentPlayer := g1.findTwoOfClubsPlayer }

/-- `submitPass` from HeartsGame.js. -/
def HeartsGame.submitPass (g : HeartsGame) (playerIndex : Fin 4) (cards : List Card) :
    HPassOut × HeartsGame :=
  if g.phase ≠ .passing then (.err "Not in passing phase", g)
  else if cards.length ≠ 3 then (.err "Must pass exactly 3 cards", g)
  else if cards.any (fun card => !(g.hands playerIndex).any (fun c => cardEquals c card)) then
    (.err "Card not in hand", g)
  else
    let g1 := { g with passes := Function.update g.passes playerIndex (some cards) }
    if g1.countPasses = 4 then (.ok true, g1.executeCardExchange)
    else (.ok false, g1)

/-- `getLegalCards` from HeartsGame.js. -/
def HeartsGame.getLegalCards (g : HeartsGame) (playerIndex : Fin 4) : List Card :=
  let hand := g.hands playerIndex
  match g.currentTrick with
  | [] =>
    if g.tricksPlayed = 0 then
      -- first trick: must lead the 2 of clubs
      hand.filter (fun c => c.suit == .clubs && c.rank == .r2)
    else if !g.heartsBroken then
      let nonHearts := hand.filter (fun c => c.suit != .hearts)
      if !nonHearts.isEmpty then nonHearts else hand
    else hand
  | t0 :: _ =>
    let sameSuit := getCardsOfSuit hand t0.card.suit
    if !sameSuit.isEmpty then sameSuit
    else if g.tricksPlayed = 0 then
      let safe := hand.filter
        (fun c => c.suit != .hearts && !(c.suit == .spades && c.rank == .rQ))
      if !safe.isEmpty then safe else hand
    else hand

/-- Penalty points of a completed trick: 1 per heart, 13 for the Q♠. -/
def trickPoints (trick : List Play) : ℕ :=
  (trick.map (fun pl =>
    (if pl.card.suit == .hearts then 1 else 0) +
      (if pl.card.suit == .spades && pl.card.rank == .rQ then 13 else 0))).sum

/-- First index holding exactly 26 round points,
`this.roundScores.findIndex(s => s === 26)`. -/
def firstIdx26 (rs : Fin 4 → ℕ) : Option (Fin 4) :=
  if rs 0 = 26 then some 0
  else if rs 1 = 26 then some 1
  else if rs 2 = 26 then some 2
  else if rs 3 = 26 then some 3
  else none

/-- `Math.max` over the four cumulative scores. -/
def max4 (f : Fin 4 → ℕ) : ℕ :=
  max (max (f 0) (f 1)) (max (f 2) (f 3))

/-- `Math.min` over the four cumulative scores. -/
def min4 (f : Fin 4 → ℕ) : ℕ :=
  min (min (f 0) (f 1)) (min (f 2) (f 3))

/-- `this.cumulativeScores.indexOf(minScore)`: the first index attaining the
minimum. -/
def firstIdxMin (f : Fin 4 → ℕ) : Fin 4 :=
  if f 0 = min4 f then 0
  else if f 1 = min4 f then 1
  else if f 2 = min4 f then 2
  else 3

/-- `Math.min(...)` of a list (the non-empty case of the JS spread call). -/
def listMin : List ℕ → ℕ
  | [] => 0
  | x :: xs => xs.foldl min x

/-- The moon-shot branch of `completeRound`: if some seat took 26 this round,
rewrite the round scores to option A or option B by comparing hypothetical
cumulative totals. -/
def moonAdjust (rs cum : Fin 4 → ℕ) : (Fin 4 → ℕ) × Option MoonType :=
  match firstIdx26 rs with
  | none => (rs, none)
  | some sh =>
    let hyp : Fin 4 → ℕ := fun i => if i = sh then cum i else cum i + 26
    let othersMin := listMin (((List.finRange 4).filter (fun j => j ≠ sh)).map hyp)
    if hyp sh ≤ othersMin then ((fun i => if i = sh then 0 else 26), some .gave)
    else ((fun i => if i = sh then 26 else 0), some .took)

/-- `completeRound` from HeartsGame.js: moon-shot disambiguation, cumulative
update, game-over check and winner report. -/
def HeartsGame.completeRound (g : HeartsGame) (lastTrickWinner : Fin 4) :
    HPlayOut × HeartsGame :=
  let moonShooter := firstIdx26 g.roundScores
  let adjusted := moonAdjust g.roundScores g.cumulativeScores
  let rs := adjusted.1
  let cum : Fin 4 → ℕ := fun i => g.cumulativeScores i + rs i
  let gameOver := decide (g.endingScore ≤ max4 cum)
  let winner : Option (Fin 4) := if gameOver then some (firstIdxMin cum) else none
  (.roundDone lastTrickWinner (rs lastTrickWinner) rs cum moonShooter adjusted.2
      gameOver winner,
    { g with
        roundScores := rs, cumulativeScores := cum, currentTrick := [],
        phase := .roundEnd })

/-- `completeTrick` from HeartsGame.js. -/
def HeartsGame.completeTrick (g : HeartsGame) : HPlayOut × HeartsGame :=
  let winner := determineTrickWinner g.currentTrick
  let points := trickPoints g.currentTrick
  let g1 := { g with
    roundScores := Function.update g.roundScores winner (g.roundScores winner + points),
    tricksTaken := Function.update g.tricksTaken winner
      (g.tricksTaken winner ++ [g.currentTrick]),
    lastTrick := some g.currentTrick,
    tricksPlayed := g.tricksPlayed + 1 }
  if g1.tricksPlayed = 13 then g1.completeRound winner
  else (.trickDone winner points, { g1 with currentTrick := [], currentPlayer := winner })

/-- `playCard` from HeartsGame.js. -/
def HeartsGame.playCard (g : HeartsGame) (playerIndex : Fin 4) (card : Card) :
    HPlayOut × HeartsGame :=
  if g.phase ≠ .playing then (.err "Not in playing phase", g)
  else if playerIndex ≠ g.currentPlayer then (.err "Not your turn", g)
  else if (g.getLegalCards playerIndex).any (fun c => cardEquals c card) then
    let g1 := { g with
      hands := Function.update g.hands playerIndex
        ((g.hands playerIndex).filter (fun c => !cardEquals c card)),
      currentTrick := g.currentTrick ++ [Play.mk playerIndex card],
      heartsBroken := g.heartsBroken || (card.suit == Suit.hearts) }
    if g1.currentTrick.length = 4 then g1.completeTrick
    else (.played, { g1 with currentPlayer := g1.currentPlayer + 1 })
  else (.err "Illegal card play", g)

/-- C1 property of `completeRound`: with `sh` the (first) seat holding 26
round points, option A (`sh` gets 0, others +26) is applied exactly when the
shooter's hypothetical cumulative total is ≤ the minimum of the other three
seats' hypothetical totals, option B otherwise, and the cumulative scores
receive exactly the rewritten round scores. -/
def heartsMoonSpec (g : HeartsGame) (lw sh : Fin 4) : Prop :=
  let r := g.completeRound lw
  let condA := g.cumulativeScores sh ≤
    listMin (((List.finRange 4).filter (fun j => j ≠ sh)).map
      (fun j => g.cumulativeScores j + 26))
  ((condA → r.2.roundScores = fun i => if i = sh then 0 else 26) ∧
    (¬ condA → r.2.roundScores = fun i => if i = sh then 26 else 0)) ∧
  r.2.cumulativeScores = fun i => g.cumulativeScores i + r.2.roundScores i

/-- C5 property: shape of the legal-card set in the playing phase and the
accept/reject behaviour of `playCard` on it. -/
def heartsLegalSpec (g : HeartsGame) (p : Fin 4) : Prop :=
  let L := g.getLegalCards p
  let hand := g.hands p
  (∀ c ∈ L, c ∈ hand) ∧
  (g.tricksPlayed = 0 → g.currentTrick = [] →
    L = hand.filter (fun c => c.suit == .clubs && c.rank == .r2)) ∧
  (g.currentTrick = [] → g.tricksPlayed ≠ 0 → g.heartsBroken = false →
    (∃ c ∈ hand, c.suit ≠ .hearts) → ∀ c ∈ L, c.suit ≠ .hearts) ∧
  (∀ t0 rest, g.currentTrick = t0 :: rest →
    (∃ c ∈ hand, c.suit = t0.card.suit) → L = getCardsOfSuit hand t0.card.suit) ∧
  (∀ t0 rest, g.currentTrick = t0 :: rest → g.tricksPlayed = 0 →
    (∀ c ∈ hand, c.suit ≠ t0.card.suit) →
    (∃ c ∈ hand, c.suit ≠ .hearts ∧ ¬(c.suit = .spades ∧ c.rank = .rQ)) →
    ∀ c ∈ L, c.suit ≠ .hearts ∧ ¬(c.suit = .spades ∧ c.rank = .rQ)) ∧
  (∀ card, card ∉ L → g.playCard p card = (.err "Illegal card play", g)) ∧
  (∀ card ∈ L, (g.playCard p card).1.isSuccess = true)

/-- C6 (amended) property of `completeRound`: the game ends exactly when the
maximum updated cumulative score reaches `endingScore`, and the reported
winner is then the single lowest-indexed seat attaining the minimum
cumulative score. -/
def heartsGameEndSpec (g : HeartsGame) (lw : Fin 4) : Prop :=
  let r := g.completeRound lw
  (r.1.isGameOver = true ↔ g.endingScore ≤ max4 r.2.cumulativeScores) ∧
  (r.1.gameWinner? =
    if g.endingScore ≤ max4 r.2.cumulativeScores then
      some (firstIdxMin r.2.cumulativeScores)
    else none) ∧
  r.2.cumulativeScores (firstIdxMin r.2.cumulativeScores) = min4 r.2.cumulativeScores ∧
  (∀ j : Fin 4, r.2.cumulativeScores j = min4 r.2.cumulativeScores →
    firstIdxMin r.2.cumulativeScores ≤ j)

/-- A concrete passing-phase state: seat 0 holds 2♣,3♣,4♣; no passes yet. -/
def heartsPassState : HeartsGame :=
  { hands := ![[Card.mk .clubs .r2, Card.mk .clubs .r3, Card.mk .clubs .r4], [], [], []],
    roundNumber := 1, phase := .passing, passDirection := some .left,
    passes := fun _ => none, currentTrick := [], currentPlayer := 0,
    heartsBroken := false, tricksTaken := fun _ => [], roundScores := fun _ => 0,
    cumulativeScores := fun _ => 0, lastTrick := none, tricksPlayed := 0,
    endingScore := 20 }

/-- A concrete end-of-round state (13 tricks played) whose round scores
13,13,0,0 leave seats 2 and 3 tied for the minimum cumulative score. -/
def heartsTieState : HeartsGame :=
  { hands := fun _ => [], roundNumber := 1, phase := .playing, passDirection := none,
    passes := fun _ => none, currentTrick := [], currentPlayer := 0,
    heartsBroken := true, tricksTaken := fun _ => [], roundScores := ![13, 13, 0, 0],
    cumulativeScores := fun _ => 0, lastTrick := none, tricksPlayed := 13,
    endingScore := 10 }

/-- A concrete moon-shot end-of-round state: seat 0 took all 26 points. -/
def heartsMoonState : HeartsGame :=
  { hands := fun _ => [], roundNumber := 1, phase := .playing, passDirection := none,
    passes := fun _ => none, currentTrick := [], currentPlayer := 0,
    heartsBroken := true, tricksTaken := fun _ => [], roundScores := ![26, 0, 0, 0],
    cumulativeScores := fun _ => 0, lastTrick := none, tricksPlayed := 13,
    endingScore := 20 }

/-- A concrete playing-phase state for the legality claim: first trick, seat 0
to lead holding 2♣ and A♥. -/
def heartsPlayState : HeartsGame :=
  { hands := ![[Card.mk .clubs .r2, Card.mk .hearts .rA], [], [], []],
    roundNumber := 1, phase := .playing, passDirection := none,
    passes := fun _ => none, currentTrick := [], currentPlayer := 0,
    heartsBroken := false, tricksTaken := fun _ => [], roundScores := fun _ => 0,
    cumulativeScores := fun _ => 0, lastTrick := none, tricksPlayed := 0,
    endingScore := 20 }

/-! ### Spades engine (the Spades game-logic source file) -/

/-- Spades phases. -/
inductive SPhase
  | dealing | bidding | playing | roundEnd
deriving DecidableEq, Repr

/-- A Spades bid: an integer 0..13, `nil`, or `blind_nil`. -/
inductive Bid
  | num (n : ℕ)
  | nil
  | blindNil
deriving DecidableEq, Repr

/-- State of the `SpadesGame` class (timers and the blind-nil card-exchange
placeholder, unused by the engine logic, are omitted). -/
structure SpadesGame where
  hands : Fin 4 → List Card
  roundNumber : ℕ
  phase : SPhase
  bids : Fin 4 → Option Bid
  bidsSubmitted : ℕ
  currentTrick : List Play
  currentPlayer : Fin 4
  spadesBroken : Bool
  tricksTakenBySeat : Fin 4 → ℕ
  teamTricks : Fin 2 → ℕ
  roundScores : Fin 2 → ℤ
  cumulativeScores : Fin 2 → ℤ
  bags : Fin 2 → ℕ
  lastTrick : Option (List Play)
  tricksPlayed : ℕ
  winThreshold : ℤ
deriving DecidableEq

/-- `getTeamForSeat`: seats 0,2 are team 0; seats 1,3 are team 1. -/
def getTeamForSeat (seat : Fin 4) : Fin 2 :=
  ⟨seat.val % 2, Nat.mod_lt _ (by omega)⟩

/-- `getPartnerSeat`: `(seat + 2) mod 4`. -/
def getPartnerSeat (seat : Fin 4) : Fin 4 :=
  seat + 2

/-- First seat of a team (`seat1` in `completeRound`/`getTeamBid`). -/
def teamSeat1 (t : Fin 2) : Fin 4 := if t = 0 then 0 else 1

/-- Second seat of a team (`seat2` in `completeRound`/`getTeamBid`). -/
def teamSeat2 (t : Fin 2) : Fin 4 := if t = 0 then 2 else 3

/-- `canDeclareBlindNil` from the Spades source: the bidder's team must be
behind by ≥ 100 and the partner must not have already bid blind nil. -/
def SpadesGame.canDeclareBlindNil (g : SpadesGame) (seat : Fin 4) : Bool :=
  let team := getTeamForSeat seat
  let otherTeam : Fin 2 := 1 - team
  let behindBy := g.cumulativeScores otherTeam - g.cumulativeScores team
  if behindBy < 100 then false
  else if g.bids (getPartnerSeat seat) = some .blindNil then false
  else true

/-- Result of `submitBid`. -/
inductive SBidOut
  | err (msg : String)
  | ok (allBidsIn : Bool)
deriving DecidableEq, Repr

/-- `success` field of a bid result. -/
def SBidOut.success : SBidOut → Bool
  | .err _ => false
  | .ok _ => true

/-- `submitBid` from the Spades source. -/
def SpadesGame.submitBid (g : SpadesGame) (playerIndex : Fin 4) (bid : Bid) :
    SBidOut × SpadesGame :=
  if g.phase ≠ .bidding then (.err "Not in bidding phase", g)
  else if g.bids playerIndex ≠ none then (.err "Already submitted bid", g)
  else
    let record : SBidOut × SpadesGame :=
      let g1 := { g with
        bids := Function.update g.bids playerIndex (some bid),
        bidsSubmitted := g.bidsSubmitted + 1 }
      if g1.bidsSubmitted = 4 then
        (.ok true, { g1 with phase := .playing, currentPlayer := 0 })
      else (.ok false, { g1 with currentPlayer := g.currentPlayer + 1 })
    match bid with
    | .blindNil =>
      if g.canDeclareBlindNil playerIndex then record
      else (.err "Cannot declare blind nil", g)
    | .nil => record
    | .num n =>
      if 13 < n then (.err "Invalid bid - must be 0-13, nil, or blind_nil", g)
      else record

/-- `getEffectiveBid`: nil variants (and a missing bid) count as 0. -/
def getEffectiveBid : Option Bid → ℕ
  | some (.num n) => n
  | some .nil => 0
  | some .blindNil => 0
  | none => 0

/-- `getTeamBid`: sum of the two partners' effective bids. -/
def SpadesGame.getTeamBid (g : SpadesGame) (team : Fin 2) : ℕ :=
  getEffectiveBid (g.bids (teamSeat1 team)) + getEffectiveBid (g.bids (teamSeat2 team))

/-- Nil/blind-nil contribution of one seat to its team's round score. -/
def nilContribution (bid : Option Bid) (tricksTaken : ℕ) : ℤ :=
  match bid with
  | some .nil => if tricksTaken = 0 then 50 else -50
  | some .blindNil => if tricksTaken = 0 then 100 else -100
  | _ => 0

/-- One team's round score as computed in `completeRound`: nil outcomes for
both partners, then `±10·teamBid` plus 1 per overtrick. -/
def SpadesGame.teamRoundScore (g : SpadesGame) (t : Fin 2) : ℤ :=
  let teamBid := g.getTeamBid t
  let teamTricks := g.teamTricks t
  nilContribution (g.bids (teamSeat1 t)) (g.tricksTakenBySeat (teamSeat1 t)) +
    nilContribution (g.bids (teamSeat2 t)) (g.tricksTakenBySeat (teamSeat2 t)) +
    (if teamBid ≤ teamTricks then
      (teamBid : ℤ) * 10 + ((teamTricks - teamBid : ℕ) : ℤ)
    else -((teamBid : ℤ) * 10))

/-- New bags produced by one team this round (`newBags` in `completeRound`). -/
def SpadesGame.newBags (g : SpadesGame) (t : Fin 2) : ℕ :=
  if g.getTeamBid t ≤ g.teamTricks t then g.teamTricks t - g.getTeamBid t else 0

/-- The bag-penalty loop of `completeRound`: while the bag count is ≥ 10,
subtract 100 from the cumulative score and 10 from the bags. -/
def bagLoop (cum : ℤ) (bags : ℕ) : ℤ × ℕ :=
  if 10 ≤ bags then bagLoop (cum - 100) (bags - 10) else (cum, bags)
termination_by bags
decreasing_by omega

/-- `Math.max` over the two team scores. -/
def max2 (f : Fin 2 → ℤ) : ℤ := max (f 0) (f 1)

/-- Result of `completeRound` in the Spades source. -/
inductive SRoundOut
  | roundDone (winner : Fin 4) (winnerTeam : Fin 2)
      (roundScores cumulativeScores : Fin 2 → ℤ) (bags : Fin 2 → ℕ)
      (gameOver : Bool) (gameWinnerTeam : Option (Fin 2))
deriving DecidableEq

/-- `completeRound` from the Spades source: per-team scoring, bag carry with
penalties, and the game-over check. -/
def SpadesGame.completeRound (g : SpadesGame) (lastTrickWinner : Fin 4) :
    SRoundOut × SpadesGame :=
  let rs : Fin 2 → ℤ := fun t => g.teamRoundScore t
  let afterBags : Fin 2 → ℤ × ℕ := fun t =>
    bagLoop (g.cumulativeScores t + rs t) (g.bags t + g.newBags t)
  let cum : Fin 2 → ℤ := fun t => (afterBags t).1
  let bags : Fin 2 → ℕ := fun t => (afterBags t).2
  let gameOver := decide (g.winThreshold ≤ max2 cum)
  let winnerTeam : Option (Fin 2) :=
    if gameOver then
      (if cum 1 < cum 0 then some 0 else if cum 0 < cum 1 then some 1 else none)
    else none
  (.roundDone lastTrickWinner (getTeamForSeat lastTrickWinner) rs cum bags
      gameOver winnerTeam,
    { g with
        roundScores := rs, cumulativeScores := cum, bags := bags,
        currentTrick := [], phase := .roundEnd })

/-- `Object.keys`-style count of submitted bids over a bid table. -/
def countBidsFn (bids : Fin 4 → Option Bid) : ℕ :=
  (if (bids 0).isSome then 1 else 0) + (if (bids 1).isSome then 1 else 0) +
    (if (bids 2).isSome then 1 else 0) + (if (bids 3).isSome then 1 else 0)

/-- The number of seats that have submitted a bid. -/
def SpadesGame.countBids (g : SpadesGame) : ℕ :=
  countBidsFn g.bids

/-- C3 property of the Spades `completeRound`, transcribed from the
specification: nil outcomes scored per partner, `+10·B` plus one per
overtrick when the team makes its bid `B` (overtricks added to the bag
count), `−10·B` otherwise, and after accumulation every full 10 bags costs
100 points, leaving the bag count in `[0, 9]`. -/
def spadesRoundSpec (g : SpadesGame) (lw : Fin 4) : Prop :=
  ∀ t : Fin 2,
    let g' := (g.completeRound lw).2
    let nilPart : ℤ :=
      nilContribution (g.bids (teamSeat1 t)) (g.tricksTakenBySeat (teamSeat1 t)) +
        nilContribution (g.bids (teamSeat2 t)) (g.tricksTakenBySeat (teamSeat2 t))
    let B := g.getTeamBid t
    let tt := g.teamTricks t
    (B ≤ tt →
      g'.roundScores t = nilPart + 10 * (B : ℤ) + ((tt - B : ℕ) : ℤ) ∧
      g'.bags t = (g.bags t + (tt - B)) % 10 ∧
      g'.cumulativeScores t =
        g.cumulativeScores t + g'.roundScores t - 100 * ((g.bags t + (tt - B)) / 10 : ℕ)) ∧
    (tt < B →
      g'.roundScores t = nilPart - 10 * (B : ℤ) ∧
      g'.bags t = g.bags t % 10 ∧
      g'.cumulativeScores t =
        g.cumulativeScores t + g'.roundScores t - 100 * ((g.bags t / 10 : ℕ))) ∧
    g'.bags t ≤ 9

/-- C9 property: in the bidding phase, a blind-nil bid by a seat that has not
yet bid succeeds exactly under the eligibility predicate, and a failed call
leaves the state (bids, current bidder and all) unchanged. -/
def spadesBlindNilSpec (g : SpadesGame) (p : Fin 4) : Prop :=
  let r := g.submitBid p .blindNil
  let team := getTeamForSeat p
  (r.1.success = true ↔
    (100 ≤ g.cumulativeScores (1 - team) - g.cumulativeScores team ∧
      g.bids (getPartnerSeat p) ≠ some .blindNil)) ∧
  (r.1.success = false → r.2 = g)

/-- A concrete bidding-phase state: team 1 leads team 0 by 150 points. -/
def spadesBidState : SpadesGame :=
  { hands := fun _ => [], roundNumber := 1, phase := .bidding,
    bids := fun _ => none, bidsSubmitted := 0, currentTrick := [],
    currentPlayer := 0, spadesBroken := false, tricksTakenBySeat := fun _ => 0,
    teamTricks := fun _ => 0, roundScores := fun _ => 0,
    cumulativeScores := ![0, 150], bags := fun _ => 0, lastTrick := none,
    tricksPlayed := 0, winThreshold := 300 }

/-- A concrete bidding-phase state in which seat 0 has already bid 3. -/
def spadesRebidState : SpadesGame :=
  { spadesBidState with
      bids := Function.update (fun _ => none) 0 (some (Bid.num 3)),
      bidsSubmitted := 1, currentPlayer := 1 }

/-- A concrete completed Spades round: bids 3, nil, 4, 2; tricks 0,1,7,5. -/
def spadesRoundState : SpadesGame :=
  { hands := fun _ => [], roundNumber := 1, phase := .playing,
    bids := ![some (Bid.num 3), some Bid.nil, some (Bid.num 4), some (Bid.num 2)],
    bidsSubmitted := 4, currentTrick := [], currentPlayer := 0,
    spadesBroken := true, tricksTakenBySeat := ![0, 1, 7, 5],
    teamTricks := ![7, 6], roundScores := fun _ => 0,
    cumulativeScores := ![0, 0], bags := ![8, 0], lastTrick := none,
    tricksPlayed := 13, winThreshold := 300 }

/-! ### King engine (`src/server/games/KingGame.js`) -/

/-- King phases. -/
inductive KPhase
  | dealing | selecting | playing | gameEnd
deriving DecidableEq, Repr

/-- The six penalty contracts (`PENALTY_CONTRACTS`). -/
inductive PenaltyName
  | el | kupa | erkek | kiz | rifki | sonIki
deriving DecidableEq, Repr, Fintype

/-- A King contract: a penalty contract or a trump suit.  The same sum type
keys `globalContractUsage` (the JS object keys `el..sonIki, trump_*`). -/
inductive Contract
  | penalty (name : PenaltyName)
  | trump (suit : Suit)
deriving DecidableEq, Repr, Fintype

/-- State of the `KingGame` class.  Timers and the display-only
`_trick12Cards`/`_trick13Cards`/`partyScores` fields are omitted. -/
structure KingGame where
  hands : Fin 4 → List Card
  gameNumber : ℕ
  phase : KPhase
  selectorSeat : Fin 4
  contract : Option Contract
  currentTrick : List Play
  currentPlayer : Fin 4
  tricksPlayed : ℕ
  tricksTaken : Fin 4 → List (List Play)
  lastTrick : Option (List Play)
  heartsBroken : Bool
  trumpBroken : Bool
  gameScores : Fin 4 → ℤ
  cumulativeScores : Fin 4 → ℤ
  contractsUsed : Fin 4 → ℕ × ℕ
  globalContractUsage : Contract → ℕ
  contractHistory : List (ℕ × Fin 4 × Contract)
  trick12Winner : Option (Fin 4)
  trick13Winner : Option (Fin 4)
deriving DecidableEq

/-- The `KingGame` constructor state. -/
def KingGame.init (initialSelectorSeat : Fin 4) : KingGame :=
  { hands := fun _ => [], gameNumber := 1, phase := .dealing,
    selectorSeat := initialSelectorSeat, contract := none, currentTrick := [],
    currentPlayer := 0, tricksPlayed := 0, tricksTaken := fun _ => [],
    lastTrick := none, heartsBroken := false, trumpBroken := false,
    gameScores := fun _ => 0, cumulativeScores := fun _ => 0,
    contractsUsed := fun _ => (0, 0), globalContractUsage := fun _ => 0,
    contractHistory := [], trick12Winner := none, trick13Winner := none }

/-- `deal` from KingGame.js: round-robin deal of a (shuffled) deck, hands
sorted, phase set to `selecting`; the shuffle's randomness is modelled by
taking the deck as an argument. -/
def KingGame.deal (g : KingGame) (deck : List Card) : KingGame :=
  { g with
      hands := fun i =>
        sortHand ((deck.take 52).enum.filterMap
          (fun jc => if jc.1 % 4 = i.val then some jc.2 else none)),
      phase := .selecting, contract := none, currentTrick := [],
      heartsBroken := false, trumpBroken := false, tricksTaken := fun _ => [],
      gameScores := fun _ => 0, lastTrick := none, tricksPlayed := 0 }

/-- `canSelectContract` from KingGame.js.  Contract requests are already
well-typed, so the JS string-validity branches are unrepresentable. -/
def KingGame.canSelectContract (g : KingGame) (playerSeat : Fin 4) (req : Contract) :
    Option String :=
  if playerSeat ≠ g.selectorSeat then some "Not your turn to select"
  else if g.phase ≠ .selecting then some "Not in selection phase"
  else
    match req with
    | .penalty _ =>
      if 3 ≤ (g.contractsUsed playerSeat).1 then some "No penalty selections remaining"
      else if 2 ≤ g.globalContractUsage req then
        some "This contract has been used twice already"
      else none
    | .trump _ =>
      if 2 ≤ (g.contractsUsed playerSeat).2 then some "No trump selections remaining"
      else if 2 ≤ g.globalContractUsage req then
        some "This trump suit has been used twice already"
      else none

/-- Results of King operations. -/
inductive KOut
  | err (msg : String)
  | selected (contract : Contract) (startingPlayer : Fin 4)
  | played
  | trickDone (winner : Fin 4)
  | gameDone (winner : Fin 4) (gameScores cumulativeScores : Fin 4 → ℤ)
      (partyOver : Bool) (winners : Option (List (Fin 4)))
deriving DecidableEq

/-- `success` field of a King result. -/
def KOut.success : KOut → Bool
  | .err _ => false
  | _ => true

/-- `gameComplete` field of a King result. -/
def KOut.gameComplete : KOut → Bool
  | .gameDone _ _ _ _ _ => true
  | _ => false

/-- `selectContract` from KingGame.js. -/
def KingGame.selectContract (g : KingGame) (playerSeat : Fin 4) (req : Contract) :
    KOut × KingGame :=
  match g.canSelectContract playerSeat req with
  | some e => (.err e, g)
  | none =>
    let used := g.contractsUsed playerSeat
    let used' :=
      match req with
      | .penalty _ => (used.1 + 1, used.2)
      | .trump _ => (used.1, used.2 + 1)
    (.selected req playerSeat,
      { g with
          contract := some req,
          contractsUsed := Function.update g.contractsUsed playerSeat used',
          globalContractUsage :=
            Function.update g.globalContractUsage req (g.globalContractUsage req + 1),
          contractHistory := g.contractHistory ++ [(g.gameNumber, playerSeat, req)],
          phase := .playing, currentPlayer := playerSeat })

/-- `Math.max(...)` over a list of naturals; `0` stands in for the empty-list
`-Infinity`, which compares identically against rank values (all ≥ 2). -/
def listMaxNat (l : List ℕ) : ℕ := l.foldl max 0

/-- `getLegalCardsForTrump` from KingGame.js. -/
def KingGame.getLegalCardsForTrump (g : KingGame) (hand : List Card) (trumpSuit : Suit) :
    List Card :=
  match g.currentTrick with
  | [] =>
    if !g.trumpBroken then
      let nonTrump := hand.filter (fun c => c.suit != trumpSuit)
      if !nonTrump.isEmpty then nonTrump else hand
    else hand
  | t0 :: _ =>
    let sameSuit := getCardsOfSuit hand t0.card.suit
    if !sameSuit.isEmpty then sameSuit else hand

/-- `applyPenaltyConstraints` from KingGame.js: forced K/J (erkek) or Q (kiz)
plays when a higher card of the led suit is already on the table. -/
def KingGame.applyPenaltyConstraints (g : KingGame) (sameSuitCards : List Card)
    (contractName : PenaltyName) (ledSuit : Suit) : List Card :=
  match contractName with
  | .erkek =>
    let highestOnTable := listMaxNat
      ((g.currentTrick.filter (fun t => t.card.suit == ledSuit)).map
        (fun t => rankValue t.card.rank))
    let mustPlay := sameSuitCards.filter
      (fun c => (c.rank == .rK || c.rank == .rJ) && decide (rankValue c.rank < highestOnTable))
    if !mustPlay.isEmpty then mustPlay else sameSuitCards
  | .kiz =>
    let highestOnTable := listMaxNat
      ((g.currentTrick.filter (fun t => t.card.suit == ledSuit)).map
        (fun t => rankValue t.card.rank))
    let mustPlay := sameSuitCards.filter
      (fun c => c.rank == .rQ && decide (rankValue c.rank < highestOnTable))
    if !mustPlay.isEmpty then mustPlay else sameSuitCards
  | _ => sameSuitCards

/-- `getPenaltyDiscards` from KingGame.js: forced discards when void in the
led suit. -/
def getPenaltyDiscards (hand : List Card) (contractName : PenaltyName) : List Card :=
  match contractName with
  | .erkek =>
    let erkekCards := hand.filter (fun c => c.rank == .rK || c.rank == .rJ)
    if !erkekCards.isEmpty then erkekCards else hand
  | .kiz =>
    let queens := hand.filter (fun c => c.rank == .rQ)
    if !queens.isEmpty then queens else hand
  | .rifki =>
    match hand.find? (fun c => c.suit == .hearts && c.rank == .rK) with
    | some kingOfHearts => [kingOfHearts]
    | none =>
      let hearts := getCardsOfSuit hand .hearts
      if !hearts.isEmpty then hearts else hand
  | .kupa =>
    let hearts := getCardsOfSuit hand .hearts
    if !hearts.isEmpty then hearts else hand
  | _ => hand

/-- `getLegalCardsForPenalty` from KingGame.js. -/
def KingGame.getLegalCardsForPenalty (g : KingGame) (hand : List Card)
    (contractName : PenaltyName) : List Card :=
  match g.currentTrick with
  | [] =>
    if contractName = .kupa ∨ contractName = .rifki then
      if !g.heartsBroken then
        let nonHearts := hand.filter (fun c => c.suit != .hearts)
        if !nonHearts.isEmpty then nonHearts else hand
      else hand
    else hand
  | t0 :: _ =>
    let sameSuit := getCardsOfSuit hand t0.card.suit
    if !sameSuit.isEmpty then g.applyPenaltyConstraints sameSuit contractName t0.card.suit
    else getPenaltyDiscards hand contractName

/-- `getLegalCards` from KingGame.js; called only in the playing phase where
a contract is set (`this.contract.type` would throw on `null`). -/
def KingGame.getLegalCards (g : KingGame) (playerIndex : Fin 4) : List Card :=
  match g.contract with
  | some (.trump s) => g.getLegalCardsForTrump (g.hands playerIndex) s
  | some (.penalty n) => g.getLegalCardsForPenalty (g.hands playerIndex) n
  | none => []

/-- Summed count of captured cards matching a predicate over a seat's
tricks. -/
def capturedCount (tricks : List (List Play)) (pred : Card → Bool) : ℕ :=
  (tricks.map (fun trick => (trick.filter (fun pl => pred pl.card)).length)).sum

/-- `calculateGameScores` (with `calculateSonIkiScores`) from KingGame.js,
as a pure function of the state. -/
def KingGame.calculateGameScores (g : KingGame) : Fin 4 → ℤ :=
  match g.contract with
  | some (.trump _) => fun i => ((g.tricksTaken i).length : ℤ) * 50
  | some (.penalty .el) => fun i => -(((g.tricksTaken i).length : ℤ) * 50)
  | some (.penalty .kupa) => fun i =>
      -((capturedCount (g.tricksTaken i) (fun c => c.suit == .hearts) : ℤ) * 30)
  | some (.penalty .erkek) => fun i =>
      -((capturedCount (g.tricksTaken i) (fun c => c.rank == .rK || c.rank == .rJ) : ℤ) * 60)
  | some (.penalty .kiz) => fun i =>
      -((capturedCount (g.tricksTaken i) (fun c => c.rank == .rQ) : ℤ) * 100)
  | some (.penalty .rifki) => fun i =>
      if 0 < capturedCount (g.tricksTaken i) (fun c => c.suit == .hearts && c.rank == .rK)
      then -320 else 0
  | some (.penalty .sonIki) => fun i =>
      (if g.trick12Winner = some i then (-180 : ℤ) else 0) +
        (if g.trick13Winner = some i then (-180 : ℤ) else 0)
  | none => g.gameScores

/-- `determineWinners` from KingGame.js: every seat with a non-negative
cumulative score. -/
def kingDetermineWinners (cum : Fin 4 → ℤ) : List (Fin 4) :=
  (List.finRange 4).filter (fun i => decide (0 ≤ cum i))

/-- `completeGame` from KingGame.js. -/
def KingGame.completeGame (g : KingGame) (lastTrickWinner : Fin 4) :
    KOut × KingGame :=
  let gs := g.calculateGameScores
  let cum : Fin 4 → ℤ := fun i => g.cumulativeScores i + gs i
  let partyOver := decide (20 ≤ g.gameNumber)
  let winners : Option (List (Fin 4)) :=
    if partyOver then some (kingDetermineWinners cum) else none
  (.gameDone lastTrickWinner gs cum partyOver winners,
    { g with
        gameScores := gs, cumulativeScores := cum, hands := fun _ => [],
        currentTrick := [], phase := .gameEnd })

/-- `checkEarlyGameEnd` from KingGame.js: called after a trick with the cards
of the just-completed trick; hands have already had the played cards
removed. -/
def KingGame.checkEarlyGameEnd (g : KingGame) (lastTrickCards : List Card) : Bool :=
  let allRemainingCards := g.hands 0 ++ g.hands 1 ++ g.hands 2 ++ g.hands 3
  match g.contract with
  | some (.penalty .rifki) =>
    lastTrickCards.any (fun c => c.suit == .hearts && c.rank == .rK)
  | some (.penalty .kupa) =>
    (allRemainingCards.filter (fun c => c.suit == .hearts)).isEmpty
  | some (.penalty .erkek) =>
    (allRemainingCards.filter (fun c => c.rank == .rK || c.rank == .rJ)).isEmpty
  | some (.penalty .kiz) =>
    (allRemainingCards.filter (fun c => c.rank == .rQ)).isEmpty
  | _ => false

/-- The Son İki bookkeeping inside `completeTrick`: record the winners of
tricks 12 and 13 (checked after the `tricksPlayed` increment). -/
def KingGame.recordSonIki (g : KingGame) (winner : Fin 4) : KingGame :=
  if g.contract = some (.penalty .sonIki) then
    if g.tricksPlayed = 12 then { g with trick12Winner := some winner }
    else if g.tricksPlayed = 13 then { g with trick13Winner := some winner }
    else g
  else g

/-- The state mutations of `completeTrick` before the end-of-game check:
record the trick for its winner, bump `tricksPlayed`, and do the Son İki
bookkeeping. -/
def KingGame.completeTrickCore (g : KingGame) (winner : Fin 4) : KingGame :=
  ({ g with
      tricksTaken := Function.update g.tricksTaken winner
        (g.tricksTaken winner ++ [g.currentTrick]),
      lastTrick := some g.currentTrick,
      tricksPlayed := g.tricksPlayed + 1 } : KingGame).recordSonIki winner

/-- `completeTrick` from KingGame.js. -/
def KingGame.completeTrick (g : KingGame) : KOut × KingGame :=
  let trickCards := g.currentTrick.map (fun t => t.card)
  let winner :=
    match g.contract with
    | some (.trump s) => determineTrickWinnerWithTrump g.currentTrick s
    | _ => determineTrickWinner g.currentTrick
  let g2 := g.completeTrickCore winner
  let earlyEnd := g2.checkEarlyGameEnd trickCards
  if g2.tricksPlayed = 13 ∨ earlyEnd = true then g2.completeGame winner
  else (.trickDone winner, { g2 with currentTrick := [], currentPlayer := winner })

/-- `playCard` from KingGame.js (play order is counter-clockwise). -/
def KingGame.playCard (g : KingGame) (playerIndex : Fin 4) (card : Card) :
    KOut × KingGame :=
  if g.phase ≠ .playing then (.err "Not in playing phase", g)
  else if playerIndex ≠ g.currentPlayer then (.err "Not your turn", g)
  else if (g.getLegalCards playerIndex).any (fun c => cardEquals c card) then
    let isKupaRifki :=
      g.contract = some (.penalty .kupa) ∨ g.contract = some (.penalty .rifki)
    let isTrumpCard :=
      match g.contract with
      | some (.trump s) => card.suit == s
      | _ => false
    let g1 := { g with
      hands := Function.update g.hands playerIndex
        ((g.hands playerIndex).filter (fun c => !cardEquals c card)),
      currentTrick := g.currentTrick ++ [Play.mk playerIndex card],
      heartsBroken := g.heartsBroken || (card.suit == Suit.hearts && decide isKupaRifki),
      trumpBroken := g.trumpBroken || isTrumpCard }
    if g1.currentTrick.length = 4 then g1.completeTrick
    else (.played, { g1 with currentPlayer := g1.currentPlayer + 3 })
  else (.err "Illegal card play", g)

/-- `startNextGame` from KingGame.js: advance the game number, rotate the
selector counter-clockwise, and deal. -/
def KingGame.startNextGame (g : KingGame) (deck : List Card) : KingGame :=
  ({ g with
      gameNumber := g.gameNumber + 1,
      selectorSeat := g.selectorSeat + 3 } : KingGame).deal deck

/-- Engine states reachable from a fresh party by deal / selectContract /
playCard / startNextGame (failed operations return the unchanged state). -/
inductive KReach : KingGame → Prop
  | init (seat : Fin 4) : KReach (KingGame.init seat)
  | deal {g : KingGame} (deck : List Card) : KReach g → KReach (g.deal deck)
  | select {g : KingGame} (seat : Fin 4) (req : Contract) :
      KReach g → KReach (g.selectContract seat req).2
  | play {g : KingGame} (seat : Fin 4) (card : Card) :
      KReach g → KReach (g.playCard seat card).2
  | next {g : KingGame} (deck : List Card) : KReach g → KReach (g.startNextGame deck)

/-- The contract-specific early-termination condition over given hands and a
just-completed trick. -/
def kingEarlyEndSpecOn (hands : Fin 4 → List Card) (c : Contract)
    (trick : List Play) : Prop :=
  match c with
  | .penalty .rifki => ∃ pl ∈ trick, pl.card = Card.mk .hearts .rK
  | .penalty .kupa => ∀ i : Fin 4, ∀ cd ∈ hands i, cd.suit ≠ .hearts
  | .penalty .erkek => ∀ i : Fin 4, ∀ cd ∈ hands i, cd.rank ≠ .rK ∧ cd.rank ≠ .rJ
  | .penalty .kiz => ∀ i : Fin 4, ∀ cd ∈ hands i, cd.rank ≠ .rQ
  | _ => False

/-- C8 property: the contract-specific early-termination condition, stated at
the moment a trick completes (hands already exclude the played cards). -/
def kingEarlyEndSpec (g : KingGame) (c : Contract) : Prop :=
  kingEarlyEndSpecOn g.hands c g.currentTrick

/-- A concrete rifki game at trick 7 whose just-completed trick contains the
K♥. -/
def kingRifkiState : KingGame :=
  { KingGame.init 0 with
      phase := .playing, contract := some (.penalty .rifki),
      tricksPlayed := 6,
      currentTrick :=
        [Play.mk 0 (Card.mk .hearts .r2), Play.mk 1 (Card.mk .hearts .rK),
          Play.mk 2 (Card.mk .hearts .r5), Play.mk 3 (Card.mk .hearts .r7)] }

theorem cardEquals_iff (a b : Card) : cardEquals a b = true ↔ a = b := by
  cases a with
  | mk sa ra =>
    cases b with
    | mk sb rb =>
      simp [cardEquals, Card.mk.injEq]

/-- Invariant of the no-trump fold in `determineTrickWinner`. -/
theorem foldl_noTrump_spec (led : Suit) (l : List Play) :
    ∀ (w : Play), w.card.suit = led →
      (l.foldl
        (fun wp p =>
          if p.card.suit = led ∧ rankValue wp.card.rank < rankValue p.card.rank then p
          else wp) w).card.suit = led ∧
      ((l.foldl
        (fun wp p =>
          if p.card.suit = led ∧ rankValue wp.card.rank < rankValue p.card.rank then p
          else wp) w) = w ∨ (l.foldl
        (fun wp p =>
          if p.card.suit = led ∧ rankValue wp.card.rank < rankValue p.card.rank then p
          else wp) w) ∈ l) ∧
      rankValue w.card.rank ≤ rankValue (l.foldl
        (fun wp p =>
          if p.card.suit = led ∧ rankValue wp.card.rank < rankValue p.card.rank then p
          else wp) w).card.rank ∧
      (∀ q ∈ l, q.card.suit = led →
        rankValue q.card.rank ≤ rankValue (l.foldl
          (fun wp p =>
            if p.card.suit = led ∧ rankValue wp.card.rank < rankValue p.card.rank then p
            else wp) w).card.rank) := by
  induction l with
  | nil =>
    intro w hw
    exact ⟨hw, Or.inl rfl, le_refl _, by simp⟩
  | cons p l ih =>
    intro w hw
    simp only [List.foldl_cons]
    by_cases hc : p.card.suit = led ∧ rankValue w.card.rank < rankValue p.card.rank
    · rw [if_pos hc]
      obtain ⟨h1, h2, h3, h4⟩ := ih p hc.1
      refine ⟨h1, ?_, le_trans (le_of_lt hc.2) h3, ?_⟩
      · rcases h2 with h | h
        · exact Or.inr (by simp [h])
        · exact Or.inr (List.mem_cons_of_mem _ h)
      · intro q hq hql
        rcases List.mem_cons.mp hq with h | h
        · subst h; exact h3
        · exact h4 q h hql
    · rw [if_neg hc]
      obtain ⟨h1, h2, h3, h4⟩ := ih w hw
      refine ⟨h1, ?_, h3, ?_⟩
      · rcases h2 with h | h
        · exact Or.inl h
        · exact Or.inr (List.mem_cons_of_mem _ h)
      · intro q hq hql
        rcases List.mem_cons.mp hq with h | h
        · subst h
          have : ¬ rankValue w.card.rank < rankValue q.card.rank := fun hlt => hc ⟨hql, hlt⟩
          exact le_trans (not_lt.mp this) h3
        · exact h4 q h hql

theorem trickStepTrump_newTrump (led trump : Suit) (w p : Play)
    (hpt : p.card.suit = trump) :
    trickStepTrump led trump (w, false) p = (p, true) := by
  have h1 : (p.card.suit == trump) = true := by simp [hpt]
  simp [trickStepTrump, h1]

theorem trickStepTrump_toLed (led trump : Suit) (w p : Play)
    (hpt : ¬ p.card.suit = trump) (hl : p.card.suit = led)
    (hlt : rankValue w.card.rank < rankValue p.card.rank) :
    trickStepTrump led trump (w, false) p = (p, false) := by
  have h1 : (p.card.suit == trump) = false := by simp [hpt]
  have h2 : (p.card.suit == led) = true := by simp [hl]
  simp [trickStepTrump, h1, h2, hlt]

theorem trickStepTrump_keepLed (led trump : Suit) (w p : Play)
    (hpt : ¬ p.card.suit = trump)
    (hno : ¬ (p.card.suit = led ∧ rankValue w.card.rank < rankValue p.card.rank)) :
    trickStepTrump led trump (w, false) p = (w, false) := by
  have h1 : (p.card.suit == trump) = false := by simp [hpt]
  by_cases hl : p.card.suit = led
  · have h2 : (p.card.suit == led) = true := by simp [hl]
    have hlt : ¬ rankValue w.card.rank < rankValue p.card.rank := fun h => hno ⟨hl, h⟩
    simp [trickStepTrump, h1, h2, hlt]
  · have h2 : (p.card.suit == led) = false := by simp [hl]
    simp [trickStepTrump, h1, h2]

theorem trickStepTrump_higherTrump (led trump : Suit) (w p : Play)
    (hpt : p.card.suit = trump)
    (hlt : rankValue w.card.rank < rankValue p.card.rank) :
    trickStepTrump led trump (w, true) p = (p, true) := by
  have h1 : (p.card.suit == trump) = true := by simp [hpt]
  simp [trickStepTrump, h1, hlt]

theorem trickStepTrump_keepTrump (led trump : Suit) (w p : Play)
    (hpt : p.card.suit = trump)
    (hlt : ¬ rankValue w.card.rank < rankValue p.card.rank) :
    trickStepTrump led trump (w, true) p = (w, true) := by
  have h1 : (p.card.suit == trump) = true := by simp [hpt]
  simp [trickStepTrump, h1, hlt]

theorem trickStepTrump_stay (led trump : Suit) (w p : Play)
    (hpt : ¬ p.card.suit = trump) :
    trickStepTrump led trump (w, true) p = (w, true) := by
  have h1 : (p.card.suit == trump) = false := by simp [hpt]
  simp [trickStepTrump, h1]

/-- Invariant of the trump fold in `determineTrickWinnerWithTrump`. -/
theorem foldl_trump_spec (led trump : Suit) (l : List Play) :
    ∀ (w : Play) (wTr : Bool), wTr = (w.card.suit == trump) →
      (wTr = false → w.card.suit = led) →
      (l.foldl (trickStepTrump led trump) (w, wTr)).2
        = ((l.foldl (trickStepTrump led trump) (w, wTr)).1.card.suit == trump) ∧
      ((l.foldl (trickStepTrump led trump) (w, wTr)).1 = w ∨
        (l.foldl (trickStepTrump led trump) (w, wTr)).1 ∈ l) ∧
      ((l.foldl (trickStepTrump led trump) (w, wTr)).2 = true →
        (l.foldl (trickStepTrump led trump) (w, wTr)).1.card.suit = trump ∧
        (wTr = true →
          rankValue w.card.rank
            ≤ rankValue (l.foldl (trickStepTrump led trump) (w, wTr)).1.card.rank) ∧
        (∀ q ∈ l, q.card.suit = trump →
          rankValue q.card.rank
            ≤ rankValue (l.foldl (trickStepTrump led trump) (w, wTr)).1.card.rank)) ∧
      ((l.foldl (trickStepTrump led trump) (w, wTr)).2 = false →
        (l.foldl (trickStepTrump led trump) (w, wTr)).1.card.suit = led ∧ wTr = false ∧
        rankValue w.card.rank
          ≤ rankValue (l.foldl (trickStepTrump led trump) (w, wTr)).1.card.rank ∧
        (∀ q ∈ l, q.card.suit ≠ trump) ∧
        (∀ q ∈ l, q.card.suit = led →
          rankValue q.card.rank
            ≤ rankValue (l.foldl (trickStepTrump led trump) (w, wTr)).1.card.rank)) := by
  induction l with
  | nil =>
    intro w wTr hTr hled
    rw [List.foldl_nil]
    refine ⟨hTr, Or.inl rfl, ?_, ?_⟩
    · intro h2
      have h2x : wTr = true := h2
      rw [h2x] at hTr
      refine ⟨by simpa using hTr.symm, fun _ => le_refl _, by simp⟩
    · intro h2
      have h2x : wTr = false := h2
      exact ⟨hled h2x, h2x, le_refl _, by simp, by simp⟩
  | cons p l ih =>
    intro w wTr hTr hled
    simp only [List.foldl_cons]
    cases wTr with
    | false =>
      have hwnt : ¬ w.card.suit = trump := by
        intro hc; rw [hc] at hTr; simp at hTr
      have hwl : w.card.suit = led := hled rfl
      by_cases hpt : p.card.suit = trump
      · -- branch `pTr && !wTr`: accumulator becomes (p, true)
        rw [trickStepTrump_newTrump led trump w p hpt]
        obtain ⟨h1, h2, h3, h4⟩ := ih p true (by simp [hpt]) (by simp)
        refine ⟨h1, ?_, ?_, ?_⟩
        · rcases h2 with h | h
          · exact Or.inr (by simp [h])
          · exact Or.inr (List.mem_cons_of_mem _ h)
        · intro hres
          obtain ⟨j1, j2, j3⟩ := h3 hres
          refine ⟨j1, fun hcon => absurd hcon (by simp), ?_⟩
          intro q hq hqt
          rcases List.mem_cons.mp hq with h | h
          · subst h; exact j2 rfl
          · exact j3 q h hqt
        · intro hres
          obtain ⟨-, hcon, -⟩ := h4 hres
          exact absurd hcon (by simp)
      · -- branch `!pTr && !wTr`: follow the led suit
        by_cases hpl : p.card.suit = led ∧ rankValue w.card.rank < rankValue p.card.rank
        · rw [trickStepTrump_toLed led trump w p hpt hpl.1 hpl.2]
          obtain ⟨h1, h2, h3, h4⟩ := ih p false (by simp [hpt]) (fun _ => hpl.1)
          refine ⟨h1, ?_, ?_, ?_⟩
          · rcases h2 with h | h
            · exact Or.inr (by simp [h])
            · exact Or.inr (List.mem_cons_of_mem _ h)
          · intro hres
            obtain ⟨j1, j2, j3⟩ := h3 hres
            refine ⟨j1, fun hcon => absurd hcon (by simp), ?_⟩
            intro q hq hqt
            rcases List.mem_cons.mp hq with h | h
            · subst h; exact absurd hqt hpt
            · exact j3 q h hqt
          · intro hres
            obtain ⟨j1, -, j3, j4, j5⟩ := h4 hres
            refine ⟨j1, rfl, le_trans (le_of_lt hpl.2) j3, ?_, ?_⟩
            · intro q hq
              rcases List.mem_cons.mp hq with h | h
              · subst h; exact hpt
              · exact j4 q h
            · intro q hq hql
              rcases List.mem_cons.mp hq with h | h
              · subst h; exact j3
              · exact j5 q h hql
        · rw [trickStepTrump_keepLed led trump w p hpt hpl]
          obtain ⟨h1, h2, h3, h4⟩ := ih w false hTr hled
          refine ⟨h1, ?_, ?_, ?_⟩
          · rcases h2 with h | h
            · exact Or.inl h
            · exact Or.inr (List.mem_cons_of_mem _ h)
          · intro hres
            obtain ⟨j1, j2, j3⟩ := h3 hres
            refine ⟨j1, j2, ?_⟩
            intro q hq hqt
            rcases List.mem_cons.mp hq with h | h
            · subst h; exact absurd hqt hpt
            · exact j3 q h hqt
          · intro hres
            obtain ⟨j1, j2, j3, j4, j5⟩ := h4 hres
            refine ⟨j1, j2, j3, ?_, ?_⟩
            · intro q hq
              rcases List.mem_cons.mp hq with h | h
              · subst h; exact hpt
              · exact j4 q h
            · intro q hq hql
              rcases List.mem_cons.mp hq with h | h
              · subst h
                have hnlt : ¬ rankValue w.card.rank < rankValue q.card.rank :=
                  fun hlt => hpl ⟨hql, hlt⟩
                exact le_trans (not_lt.mp hnlt) j3
              · exact j5 q h hql
    | true =>
      have hwt : w.card.suit = trump := by simpa using hTr.symm
      by_cases hpt : p.card.suit = trump
      · -- branch `pTr && wTr`: keep the higher trump
        by_cases hlt : rankValue w.card.rank < rankValue p.card.rank
        · rw [trickStepTrump_higherTrump led trump w p hpt hlt]
          obtain ⟨h1, h2, h3, h4⟩ := ih p true (by simp [hpt]) (by simp)
          refine ⟨h1, ?_, ?_, ?_⟩
          · rcases h2 with h | h
            · exact Or.inr (by simp [h])
            · exact Or.inr (List.mem_cons_of_mem _ h)
          · intro hres
            obtain ⟨j1, j2, j3⟩ := h3 hres
            refine ⟨j1, fun _ => le_trans (le_of_lt hlt) (j2 rfl), ?_⟩
            intro q hq hqt
            rcases List.mem_cons.mp hq with h | h
            · subst h; exact j2 rfl
            · exact j3 q h hqt
          · intro hres
            obtain ⟨-, hcon, -⟩ := h4 hres
            exact absurd hcon (by simp)
        · rw [trickStepTrump_keepTrump led trump w p hpt hlt]
          obtain ⟨h1, h2, h3, h4⟩ := ih w true hTr hled
          refine ⟨h1, ?_, ?_, ?_⟩
          · rcases h2 with h | h
            · exact Or.inl h
            · exact Or.inr (List.mem_cons_of_mem _ h)
          · intro hres
            obtain ⟨j1, j2, j3⟩ := h3 hres
            refine ⟨j1, j2, ?_⟩
            intro q hq hqt
            rcases List.mem_cons.mp hq with h | h
            · subst h
              exact le_trans (not_lt.mp hlt) (j2 rfl)
            · exact j3 q h hqt
          · intro hres
            obtain ⟨-, hcon, -⟩ := h4 hres
            exact absurd hcon (by simp)
      · -- branch `!pTr && wTr`: winner stays
        rw [trickStepTrump_stay led trump w p hpt]
        obtain ⟨h1, h2, h3, h4⟩ := ih w true hTr hled
        refine ⟨h1, ?_, ?_, ?_⟩
        · rcases h2 with h | h
          · exact Or.inl h
          · exact Or.inr (List.mem_cons_of_mem _ h)
        · intro hres
          obtain ⟨j1, j2, j3⟩ := h3 hres
          refine ⟨j1, j2, ?_⟩
          intro q hq hqt
          rcases List.mem_cons.mp hq with h | h
          · subst h; exact absurd hqt hpt
          · exact j3 q h hqt
        · intro hres
          obtain ⟨-, hcon, -⟩ := h4 hres
          exact absurd hcon (by simp)

/-- C7: for every 4-card trick, `determineTrickWinner` returns the seat of a
maximal-rank led-suit card, and `determineTrickWinnerWithTrump` returns the
seat of a maximal-rank trump card when a trump was played, otherwise that of a
maximal-rank led-suit card; cards of other suits never win. -/
theorem trick_winner_resolution (t0 : Play) (rest : List Play) (hlen : rest.length = 3)
    (trump : Suit) : trickWinnerSpec t0 rest trump := by
  constructor
  · -- no-trump function
    obtain ⟨h1, h2, h3, h4⟩ :=
      foldl_noTrump_spec t0.card.suit (t0 :: rest) t0 rfl
    refine ⟨_, ?_, rfl, h1, ?_⟩
    · rcases h2 with h | h
      · exact Or.inl h
      · exact (List.mem_cons.mp h).imp id id
    · intro q hq hql
      rcases hq with h | h
      · subst h; exact h3
      · exact h4 q (List.mem_cons_of_mem _ h) hql
  · obtain ⟨h1, h2, h3, h4⟩ :=
      foldl_trump_spec t0.card.suit trump rest t0 (t0.card.suit == trump) rfl (fun _ => rfl)
    constructor
    · -- some card of the trick is a trump
      rintro ⟨q, hq, hqt⟩
      have hres : (rest.foldl (trickStepTrump t0.card.suit trump)
          (t0, t0.card.suit == trump)).2 = true := by
        by_contra hcon
        have hfalse : (rest.foldl (trickStepTrump t0.card.suit trump)
            (t0, t0.card.suit == trump)).2 = false := by
          cases h : (rest.foldl (trickStepTrump t0.card.suit trump)
              (t0, t0.card.suit == trump)).2
          · rfl
          · exact absurd h hcon
        obtain ⟨-, j2, -, j4, -⟩ := h4 hfalse
        rcases hq with h | h
        · subst h
          rw [hqt] at j2; simp at j2
        · exact j4 q h hqt
      obtain ⟨j1, j2, j3⟩ := h3 hres
      refine ⟨_, ?_, rfl, j1, ?_⟩
      · rcases h2 with h | h
        · exact Or.inl h
        · exact Or.inr h
      · intro q' hq' hqt'
        rcases hq' with h | h
        · subst h
          exact j2 (by rw [hqt']; simp)
        · exact j3 q' h hqt'
    · -- no trump card in the trick
      intro hall
      have ht0 : ¬ t0.card.suit = trump := hall t0 (Or.inl rfl)
      have hres : (rest.foldl (trickStepTrump t0.card.suit trump)
          (t0, t0.card.suit == trump)).2 = false := by
        cases h : (rest.foldl (trickStepTrump t0.card.suit trump)
            (t0, t0.card.suit == trump)).2
        · rfl
        · obtain ⟨j1, -, -⟩ := h3 h
          rcases h2 with hm | hm
          · rw [hm] at j1; exact absurd j1 ht0
          · exact absurd j1 (hall _ (Or.inr hm))
      obtain ⟨j1, -, j3, -, j5⟩ := h4 hres
      refine ⟨_, ?_, rfl, j1, ?_⟩
      · rcases h2 with h | h
        · exact Or.inl h
        · exact Or.inr h
      · intro q hq hql
        rcases hq with h | h
        · subst h; exact j3
        · exact j5 q h hql

/-- Concrete application of `trick_winner_resolution`: the 4-card trick
2♣,A♣,K♥,5♣ with spades as trump. -/
theorem trick_winner_resolution_applied :
    ([⟨1, ⟨.clubs, .rA⟩⟩, ⟨2, ⟨.hearts, .rK⟩⟩, ⟨3, ⟨.clubs, .r5⟩⟩] : List Play).length = 3 ∧
      trickWinnerSpec ⟨0, ⟨.clubs, .r2⟩⟩
        [⟨1, ⟨.clubs, .rA⟩⟩, ⟨2, ⟨.hearts, .rK⟩⟩, ⟨3, ⟨.clubs, .r5⟩⟩] Suit.spades :=
  ⟨by decide,
   trick_winner_resolution ⟨0, ⟨.clubs, .r2⟩⟩
     [⟨1, ⟨.clubs, .rA⟩⟩, ⟨2, ⟨.hearts, .rK⟩⟩, ⟨3, ⟨.clubs, .r5⟩⟩] (by decide) Suit.spades⟩

/-! ### Hearts theorems -/

theorem completeRound_isSuccess (g : HeartsGame) (w : Fin 4) :
    ((g.completeRound w).1).isSuccess = true := rfl

theorem completeTrick_isSuccess (g : HeartsGame) :
    ((g.completeTrick).1).isSuccess = true := by
  simp only [HeartsGame.completeTrick]
  split
  · exact completeRound_isSuccess _ _
  · rfl

theorem moonAdjust_some (rs cum : Fin 4 → ℕ) (sh : Fin 4)
    (h : firstIdx26 rs = some sh) :
    moonAdjust rs cum =
      if cum sh ≤ listMin (((List.finRange 4).filter (fun j => j ≠ sh)).map
          (fun j => cum j + 26)) then
        ((fun i => if i = sh then 0 else 26), some .gave)
      else ((fun i => if i = sh then 26 else 0), some .took) := by
  have hmap : (((List.finRange 4).filter (fun j => j ≠ sh)).map
      (fun i => if i = sh then cum i else cum i + 26)) =
      (((List.finRange 4).filter (fun j => j ≠ sh)).map
      (fun j => cum j + 26)) := by
    apply List.map_congr_left
    intro j hj
    have hne : j ≠ sh := by
      have := (List.mem_filter.mp hj).2
      simpa using this
    simp [hne]
  have hsh : (if sh = sh then cum sh else cum sh + 26) = cum sh := if_pos rfl
  simp only [moonAdjust, h]
  simp only [hmap, hsh]
  simp

theorem any_cardEquals_iff (L : List Card) (card : Card) :
    (L.any (fun c => cardEquals c card) = true) ↔ card ∈ L := by
  simp only [List.any_eq_true, cardEquals_iff]
  constructor
  · rintro ⟨c, hc, rfl⟩; exact hc
  · intro hc; exact ⟨card, hc, rfl⟩

/-- C1: when a round completes with seat `sh` the first seat holding exactly
26 round points, `completeRound` rewrites the round scores to option A
(shooter 0, others +26) exactly when the shooter's hypothetical cumulative
total is ≤ the minimum of the other three hypothetical totals (ties giving
option A), to option B (shooter +26, others 0) otherwise, and only then adds
the rewritten round scores to the cumulative scores. -/
theorem hearts_moon_disambiguation (g : HeartsGame) (lw sh : Fin 4)
    (h : firstIdx26 g.roundScores = some sh) : heartsMoonSpec g lw sh := by
  unfold heartsMoonSpec HeartsGame.completeRound
  rw [moonAdjust_some g.roundScores g.cumulativeScores sh h]
  by_cases hc : g.cumulativeScores sh ≤
      listMin (((List.finRange 4).filter (fun j => j ≠ sh)).map
        (fun j => g.cumulativeScores j + 26))
  · simp only [if_pos hc]
    exact ⟨⟨fun _ => by trivial, fun hn => absurd hc hn⟩, by trivial⟩
  · simp only [if_neg hc]
    exact ⟨⟨fun hn => absurd hn hc, fun _ => by trivial⟩, by trivial⟩

/-- Application of `hearts_moon_disambiguation` at a concrete moon-shot
state. -/
theorem hearts_moon_disambiguation_applied :
    firstIdx26 heartsMoonState.roundScores = some 0 ∧ heartsMoonSpec heartsMoonState 0 0 :=
  ⟨by decide, hearts_moon_disambiguation heartsMoonState 0 0 (by decide)⟩

/-- C4 (code bug): `submitPass` accepts a pass consisting of the same card
three times — the source validates the count and hand membership of each card
but never rejects duplicates, contradicting the specified pass semantics. -/
theorem hearts_pass_duplicates_accepted :
    ¬ ([Card.mk .clubs .r2, Card.mk .clubs .r2, Card.mk .clubs .r2] : List Card).Nodup ∧
      (heartsPassState.submitPass 0
        [Card.mk .clubs .r2, Card.mk .clubs .r2, Card.mk .clubs .r2]).1 =
        .ok false := by
  constructor
  · decide
  · rfl

theorem min4_cases (f : Fin 4 → ℕ) :
    min4 f = f 0 ∨ min4 f = f 1 ∨ min4 f = f 2 ∨ min4 f = f 3 := by
  simp only [min4]
  omega

theorem firstIdxMin_spec (f : Fin 4 → ℕ) :
    f (firstIdxMin f) = min4 f ∧ ∀ j : Fin 4, f j = min4 f → firstIdxMin f ≤ j := by
  unfold firstIdxMin
  split_ifs with h0 h1 h2
  · exact ⟨h0, fun j _ => Fin.zero_le j⟩
  · refine ⟨h1, ?_⟩
    intro j hj
    fin_cases j
    · exact absurd hj h0
    · decide
    · decide
    · decide
  · refine ⟨h2, ?_⟩
    intro j hj
    fin_cases j
    · exact absurd hj h0
    · exact absurd hj h1
    · decide
    · decide
  · have h3 : f 3 = min4 f := by
      rcases min4_cases f with h | h | h | h
      · exact absurd h.symm h0
      · exact absurd h.symm h1
      · exact absurd h.symm h2
      · exact h.symm
    refine ⟨h3, ?_⟩
    intro j hj
    fin_cases j
    · exact absurd hj h0
    · exact absurd hj h1
    · exact absurd hj h2
    · decide

/-- C6 (amended): a round's completion ends the game exactly when the maximum
updated cumulative score is ≥ `endingScore`, and in that case the single
reported winner is the lowest-indexed seat attaining the minimum cumulative
score. -/
theorem hearts_game_end_winner (g : HeartsGame) (lw : Fin 4) :
    heartsGameEndSpec g lw := by
  unfold heartsGameEndSpec HeartsGame.completeRound
  refine ⟨?_, ?_, (firstIdxMin_spec _).1, (firstIdxMin_spec _).2⟩
  · simp [HPlayOut.isGameOver]
  · simp only [HPlayOut.gameWinner?]
    by_cases hc : g.endingScore ≤ max4 fun i =>
        g.cumulativeScores i + (moonAdjust g.roundScores g.cumulativeScores).1 i
    · simp [hc]
    · simp [hc]

/-- Application of `hearts_game_end_winner` at a concrete finished round. -/
theorem hearts_game_end_winner_applied : heartsGameEndSpec heartsTieState 0 :=
  hearts_game_end_winner heartsTieState 0

/-- C6 counterexample to the claim as stated: in `heartsTieState` seats 2 and
3 end tied for the minimum cumulative score, yet the reported winner is only
seat 2 — seat 3 is not reported, so the winners are not "all seats tied for
the minimum". -/
theorem hearts_tied_winner_not_reported :
    (heartsTieState.completeRound 0).1.isGameOver = true ∧
      (heartsTieState.completeRound 0).2.cumulativeScores 3 =
        min4 (heartsTieState.completeRound 0).2.cumulativeScores ∧
      (heartsTieState.completeRound 0).1.gameWinner? = some 2 ∧
      (heartsTieState.completeRound 0).1.gameWinner? ≠ some 3 := by
  refine ⟨?_, ?_, ?_, ?_⟩ <;> decide

theorem hearts_legal_subset (g : HeartsGame) (p : Fin 4) :
    ∀ c ∈ g.getLegalCards p, c ∈ g.hands p := by
  intro c hc
  unfold HeartsGame.getLegalCards at hc
  dsimp only at hc
  split at hc
  · -- leading
    split at hc
    · exact (List.mem_filter.mp hc).1
    · split at hc
      · split at hc
        · exact (List.mem_filter.mp hc).1
        · exact hc
      · exact hc
  · -- following
    split at hc
    · exact (List.mem_filter.mp hc).1
    · split at hc
      · split at hc
        · exact (List.mem_filter.mp hc).1
        · exact hc
      · exact hc

/-- C5: in a playing-phase state with `p` the current player, the legal-card
set is a subset of the hand, computed by the stated first-trick / lead /
follow rules, and `playCard` rejects precisely the cards outside it (leaving
the state unchanged) while accepting every card inside it. -/
theorem hearts_legal_play (g : HeartsGame) (p : Fin 4)
    (hph : g.phase = .playing) (hcp : p = g.currentPlayer) : heartsLegalSpec g p := by
  subst hcp
  unfold heartsLegalSpec
  refine ⟨hearts_legal_subset g _, ?_, ?_, ?_, ?_, ?_, ?_⟩
  · -- first trick, leading: exactly the 2♣ filter
    intro h0 htr
    simp [HeartsGame.getLegalCards, htr, h0]
  · -- leading with hearts unbroken and a non-heart in hand: no hearts
    intro htr hne hb hex c hc
    obtain ⟨c0, hc0, hs0⟩ := hex
    have hmem : c0 ∈ (g.hands g.currentPlayer).filter (fun c => c.suit != .hearts) :=
      List.mem_filter.mpr ⟨hc0, by simpa using hs0⟩
    have hemp : ((g.hands g.currentPlayer).filter (fun c => c.suit != .hearts)).isEmpty
        = false := by
      rw [List.isEmpty_eq_false_iff_exists_mem]
      exact ⟨c0, hmem⟩
    rw [HeartsGame.getLegalCards] at hc
    simp only [htr, hne, hb, hemp] at hc
    have := (List.mem_filter.mp hc).2
    simpa using this
  · -- following with a led-suit card in hand: exactly the led-suit cards
    intro t0 rest htr hex
    obtain ⟨c0, hc0, hs0⟩ := hex
    have hmem : c0 ∈ getCardsOfSuit (g.hands g.currentPlayer) t0.card.suit :=
      List.mem_filter.mpr ⟨hc0, by simpa using hs0⟩
    have hemp : (getCardsOfSuit (g.hands g.currentPlayer) t0.card.suit).isEmpty = false := by
      rw [List.isEmpty_eq_false_iff_exists_mem]
      exact ⟨c0, hmem⟩
    simp [HeartsGame.getLegalCards, htr, hemp]
  · -- first trick, void in the led suit, safe card available: no hearts, no Q♠
    intro t0 rest htr h0 hvoid hex c hc
    have hemp : (getCardsOfSuit (g.hands g.currentPlayer) t0.card.suit).isEmpty = true := by
      rw [List.isEmpty_iff]
      refine List.filter_eq_nil_iff.mpr ?_
      intro a ha
      simpa using hvoid a ha
    obtain ⟨c0, hc0, hs0, hq0⟩ := hex
    have hmem : c0 ∈ (g.hands g.currentPlayer).filter
        (fun c => c.suit != .hearts && !(c.suit == .spades && c.rank == .rQ)) := by
      refine List.mem_filter.mpr ⟨hc0, ?_⟩
      have h1 : (c0.suit != Suit.hearts) = true := by simpa using hs0
      have h2 : (c0.suit == Suit.spades && c0.rank == Rank.rQ) = false := by
        rcases Decidable.not_and_iff_or_not.mp hq0 with h | h
        · simp [h]
        · simp [h]
      simp [h1, h2]
    have hemp2 : ((g.hands g.currentPlayer).filter
        (fun c => c.suit != .hearts && !(c.suit == .spades && c.rank == .rQ))).isEmpty
        = false := by
      rw [List.isEmpty_eq_false_iff_exists_mem]
      exact ⟨c0, hmem⟩
    rw [HeartsGame.getLegalCards] at hc
    simp only [htr, hemp, h0, hemp2] at hc
    have h2 := (List.mem_filter.mp hc).2
    have h2x : (c.suit != Suit.hearts) = true ∧
        (!(c.suit == Suit.spades && c.rank == Rank.rQ)) = true := by
      simpa [Bool.and_eq_true] using h2
    refine ⟨by simpa using h2x.1, ?_⟩
    rintro ⟨hs, hr⟩
    have hb : (c.suit == Suit.spades && c.rank == Rank.rQ) = true := by simp [hs, hr]
    have hcon := h2x.2
    rw [hb] at hcon
    simp at hcon
  · -- cards outside the legal set are rejected without touching the state
    intro card hnot
    have hany : (g.getLegalCards g.currentPlayer).any (fun c => cardEquals c card)
        = false :=
      Bool.eq_false_iff.mpr
        (fun h => hnot ((any_cardEquals_iff _ card).mp h))
    simp [HeartsGame.playCard, hph, hany]
  · -- cards inside the legal set are accepted
    intro card hc
    have hany : (g.getLegalCards g.currentPlayer).any (fun c => cardEquals c card)
        = true := (any_cardEquals_iff _ card).mpr hc
    simp only [HeartsGame.playCard, hph, hany]
    simp only [ne_eq, not_true_eq_false, if_false, if_true]
    split
    · exact completeTrick_isSuccess _
    · rfl

/-- Application of `hearts_legal_play` at a concrete first-trick state. -/
theorem hearts_legal_play_applied :
    heartsPlayState.phase = HPhase.playing ∧ (0 : Fin 4) = heartsPlayState.currentPlayer ∧
      heartsLegalSpec heartsPlayState 0 :=
  ⟨rfl, rfl, hearts_legal_play heartsPlayState 0 rfl rfl⟩

/-! ### Spades theorems -/

theorem bagLoop_eq (bags : ℕ) : ∀ (cum : ℤ),
    bagLoop cum bags = (cum - 100 * ((bags / 10 : ℕ) : ℤ), bags % 10) := by
  induction bags using Nat.strong_induction_on with
  | _ bags ih =>
    intro cum
    rw [bagLoop]
    split_ifs with h
    · rw [ih (bags - 10) (by omega)]
      refine Prod.ext ?_ ?_
      · show cum - 100 - 100 * (((bags - 10) / 10 : ℕ) : ℤ)
          = cum - 100 * ((bags / 10 : ℕ) : ℤ)
        omega
      · show (bags - 10) % 10 = bags % 10
        omega
    · refine Prod.ext ?_ ?_
      · show cum = cum - 100 * ((bags / 10 : ℕ) : ℤ)
        omega
      · show bags = bags % 10
        omega

/-- C3: each team's Spades round score is the nil outcomes of its partners
plus `10·B` and one point per overtrick when the team made its bid `B` (the
overtricks joining the bag count), `−10·B` otherwise; after accumulating into
the cumulative score, every completed group of 10 bags costs 100 points and
the remaining bag count lies in `[0, 9]`. -/
theorem spades_round_scoring (g : SpadesGame) (lw : Fin 4) : spadesRoundSpec g lw := by
  intro t
  have hrs : ((g.completeRound lw).2).roundScores t = g.teamRoundScore t := rfl
  have hcum : ((g.completeRound lw).2).cumulativeScores t =
      (bagLoop (g.cumulativeScores t + g.teamRoundScore t) (g.bags t + g.newBags t)).1 := rfl
  have hbags : ((g.completeRound lw).2).bags t =
      (bagLoop (g.cumulativeScores t + g.teamRoundScore t) (g.bags t + g.newBags t)).2 := rfl
  refine ⟨?_, ?_, ?_⟩
  · intro hB
    have hnb : g.newBags t = g.teamTricks t - g.getTeamBid t := by
      unfold SpadesGame.newBags
      rw [if_pos hB]
    have hscore : g.teamRoundScore t =
        nilContribution (g.bids (teamSeat1 t)) (g.tricksTakenBySeat (teamSeat1 t)) +
          nilContribution (g.bids (teamSeat2 t)) (g.tricksTakenBySeat (teamSeat2 t)) +
          ((g.getTeamBid t : ℤ) * 10 + ((g.teamTricks t - g.getTeamBid t : ℕ) : ℤ)) := by
      unfold SpadesGame.teamRoundScore
      dsimp only
      rw [if_pos hB]
    refine ⟨?_, ?_, ?_⟩
    · rw [hrs, hscore]; ring
    · rw [hbags, hnb, bagLoop_eq]
    · rw [hcum, hrs, hnb, bagLoop_eq]
  · intro hlt
    have hB : ¬ g.getTeamBid t ≤ g.teamTricks t := not_le.mpr hlt
    have hnb : g.newBags t = 0 := by
      unfold SpadesGame.newBags
      rw [if_neg hB]
    have hscore : g.teamRoundScore t =
        nilContribution (g.bids (teamSeat1 t)) (g.tricksTakenBySeat (teamSeat1 t)) +
          nilContribution (g.bids (teamSeat2 t)) (g.tricksTakenBySeat (teamSeat2 t)) +
          -((g.getTeamBid t : ℤ) * 10) := by
      unfold SpadesGame.teamRoundScore
      dsimp only
      rw [if_neg hB]
    refine ⟨?_, ?_, ?_⟩
    · rw [hrs, hscore]; ring
    · rw [hbags, hnb, bagLoop_eq]
      simp
    · rw [hcum, hrs, hnb, bagLoop_eq]
      simp
  · rw [hbags, bagLoop_eq]
    have := Nat.mod_lt (g.bags t + g.newBags t) (show 0 < 10 by omega)
    omega

/-- Application of `spades_round_scoring` at a concrete finished round. -/
theorem spades_round_scoring_applied : spadesRoundSpec spadesRoundState 0 :=
  spades_round_scoring spadesRoundState 0

theorem canDeclareBlindNil_iff (g : SpadesGame) (p : Fin 4) :
    g.canDeclareBlindNil p = true ↔
      (100 ≤ g.cumulativeScores (1 - getTeamForSeat p) -
          g.cumulativeScores (getTeamForSeat p) ∧
        g.bids (getPartnerSeat p) ≠ some .blindNil) := by
  unfold SpadesGame.canDeclareBlindNil
  dsimp only
  constructor
  · intro h
    split_ifs at h with hb hp
    exact ⟨not_lt.mp hb, hp⟩
  · rintro ⟨ha, hb2⟩
    rw [if_neg (not_lt.mpr ha), if_neg hb2]

theorem submitBid_blindNil_success (g : SpadesGame) (p : Fin 4)
    (h1 : g.phase = .bidding) (h2 : g.bids p = none)
    (hc : g.canDeclareBlindNil p = true) :
    ((g.submitBid p .blindNil).1).success = true := by
  unfold SpadesGame.submitBid
  rw [if_neg (by simp [h1]), if_neg (by simp [h2])]
  dsimp only
  rw [if_pos hc]
  split
  · rfl
  · rfl

theorem submitBid_blindNil_fail (g : SpadesGame) (p : Fin 4)
    (h1 : g.phase = .bidding) (h2 : g.bids p = none)
    (hc : g.canDeclareBlindNil p = false) :
    g.submitBid p .blindNil = (.err "Cannot declare blind nil", g) := by
  unfold SpadesGame.submitBid
  rw [if_neg (by simp [h1]), if_neg (by simp [h2])]
  dsimp only
  rw [if_neg (by simp [hc])]

/-- C9: during bidding, a blind-nil bid by a seat that has not yet bid
succeeds exactly when the bidder's team trails the other team by at least 100
points and the partner has not also bid blind nil; otherwise the call fails
and leaves the engine state unchanged. -/
theorem spades_blind_nil_eligibility (g : SpadesGame) (p : Fin 4)
    (h1 : g.phase = .bidding) (h2 : g.bids p = none) : spadesBlindNilSpec g p := by
  unfold spadesBlindNilSpec
  refine ⟨⟨?_, ?_⟩, ?_⟩
  · intro hs
    by_cases hc : g.canDeclareBlindNil p = true
    · exact (canDeclareBlindNil_iff g p).mp hc
    · have hc2 : g.canDeclareBlindNil p = false := Bool.eq_false_iff.mpr hc
      rw [submitBid_blindNil_fail g p h1 h2 hc2] at hs
      cases hs
  · intro hcond
    exact submitBid_blindNil_success g p h1 h2 ((canDeclareBlindNil_iff g p).mpr hcond)
  · intro hf
    by_cases hc : g.canDeclareBlindNil p = true
    · rw [submitBid_blindNil_success g p h1 h2 hc] at hf
      cases hf
    · have hc2 : g.canDeclareBlindNil p = false := Bool.eq_false_iff.mpr hc
      rw [submitBid_blindNil_fail g p h1 h2 hc2]

/-- Application of `spades_blind_nil_eligibility` at a concrete state where
seat 0's team trails by 150. -/
theorem spades_blind_nil_eligibility_applied :
    spadesBidState.phase = SPhase.bidding ∧ spadesBidState.bids 0 = none ∧
      spadesBlindNilSpec spadesBidState 0 :=
  ⟨rfl, rfl, spades_blind_nil_eligibility spadesBidState 0 rfl rfl⟩

theorem countBidsFn_update (bids : Fin 4 → Option Bid) (p : Fin 4) (b : Bid)
    (h : bids p = none) :
    countBidsFn (Function.update bids p (some b)) = countBidsFn bids + 1 := by
  fin_cases p <;>
    simp_all [countBidsFn, Function.update] <;> omega

theorem submitBid_state (g : SpadesGame) (p : Fin 4) (b : Bid) :
    (g.submitBid p b).2 = g ∨
      ((g.submitBid p b).2.bids = Function.update g.bids p (some b) ∧
        (g.submitBid p b).2.bidsSubmitted = g.bidsSubmitted + 1 ∧ g.bids p = none) := by
  unfold SpadesGame.submitBid
  split
  · exact Or.inl rfl
  · split
    · exact Or.inl rfl
    next h2 =>
      have h2x : g.bids p = none := not_ne_iff.mp h2
      cases b with
      | blindNil =>
        dsimp only
        split
        · split
          · exact Or.inr ⟨rfl, rfl, h2x⟩
          · exact Or.inr ⟨rfl, rfl, h2x⟩
        · exact Or.inl rfl
      | nil =>
        dsimp only
        split
        · exact Or.inr ⟨rfl, rfl, h2x⟩
        · exact Or.inr ⟨rfl, rfl, h2x⟩
      | num n =>
        dsimp only
        split
        · exact Or.inl rfl
        · split
          · exact Or.inr ⟨rfl, rfl, h2x⟩
          · exact Or.inr ⟨rfl, rfl, h2x⟩

/-- C10: during bidding, a seat that has already bid cannot bid again — the
call fails and leaves the whole engine state unchanged; moreover `submitBid`
preserves the invariant that `bidsSubmitted` counts the non-empty bid
entries, which is always at most 4. -/
theorem spades_single_bid_per_seat :
    (∀ (g : SpadesGame) (p : Fin 4) (b : Bid), g.phase = .bidding → g.bids p ≠ none →
      (g.submitBid p b).1.success = false ∧ (g.submitBid p b).2 = g) ∧
    (∀ (g : SpadesGame) (p : Fin 4) (b : Bid), g.bidsSubmitted = g.countBids →
      (g.submitBid p b).2.bidsSubmitted = (g.submitBid p b).2.countBids) ∧
    (∀ g : SpadesGame, g.countBids ≤ 4) := by
  refine ⟨?_, ?_, ?_⟩
  · intro g p b h1 h2
    unfold SpadesGame.submitBid
    rw [if_neg (by simp [h1]), if_pos h2]
    exact ⟨rfl, rfl⟩
  · intro g p b hinv
    rcases submitBid_state g p b with h | ⟨hb, hs, hn⟩
    · rw [h]; exact hinv
    · rw [hs, hinv]
      unfold SpadesGame.countBids
      rw [hb, countBidsFn_update g.bids p b hn]
  · intro g
    unfold SpadesGame.countBids countBidsFn
    split_ifs <;> omega

/-- Application of `spades_single_bid_per_seat` at a concrete state where
seat 0 already bid 3. -/
theorem spades_single_bid_per_seat_applied :
    spadesRebidState.phase = SPhase.bidding ∧ spadesRebidState.bids 0 ≠ none ∧
      (spadesRebidState.submitBid 0 Bid.nil).1.success = false ∧
      (spadesRebidState.submitBid 0 Bid.nil).2 = spadesRebidState :=
  ⟨rfl, by decide,
    spades_single_bid_per_seat.1 spadesRebidState 0 Bid.nil rfl (by decide)⟩

/-! ### King theorems -/

theorem deal_usage (g : KingGame) (deck : List Card) :
    (g.deal deck).globalContractUsage = g.globalContractUsage := rfl

theorem startNextGame_usage (g : KingGame) (deck : List Card) :
    (g.startNextGame deck).globalContractUsage = g.globalContractUsage := rfl

theorem completeGame_usage (g : KingGame) (w : Fin 4) :
    ((g.completeGame w).2).globalContractUsage = g.globalContractUsage := rfl

theorem recordSonIki_usage (g : KingGame) (w : Fin 4) :
    (g.recordSonIki w).globalContractUsage = g.globalContractUsage := by
  unfold KingGame.recordSonIki
  split_ifs <;> rfl

theorem completeTrickCore_usage (g : KingGame) (w : Fin 4) :
    (g.completeTrickCore w).globalContractUsage = g.globalContractUsage := by
  unfold KingGame.completeTrickCore
  exact recordSonIki_usage _ _

theorem completeTrick_usage (g : KingGame) :
    ((g.completeTrick).2).globalContractUsage = g.globalContractUsage := by
  unfold KingGame.completeTrick
  dsimp only
  split
  · rw [completeGame_usage]
    exact completeTrickCore_usage _ _
  · exact completeTrickCore_usage _ _

theorem playCard_usage (g : KingGame) (p : Fin 4) (c : Card) :
    ((g.playCard p c).2).globalContractUsage = g.globalContractUsage := by
  unfold KingGame.playCard
  split
  · rfl
  · split
    · rfl
    · split
      · dsimp only
        split
        · rw [completeTrick_usage]
        · rfl
      · rfl

theorem canSelect_none_penalty (g : KingGame) (seat : Fin 4) (n : PenaltyName)
    (h : g.canSelectContract seat (.penalty n) = none) :
    (g.contractsUsed seat).1 < 3 ∧ g.globalContractUsage (.penalty n) < 2 := by
  unfold KingGame.canSelectContract at h
  dsimp only at h
  split_ifs at h with h1 h2 h3 h4
  exact ⟨by omega, by omega⟩

theorem canSelect_none_trump (g : KingGame) (seat : Fin 4) (s : Suit)
    (h : g.canSelectContract seat (.trump s) = none) :
    (g.contractsUsed seat).2 < 2 ∧ g.globalContractUsage (.trump s) < 2 := by
  unfold KingGame.canSelectContract at h
  dsimp only at h
  split_ifs at h with h1 h2 h3 h4
  exact ⟨by omega, by omega⟩

theorem selectContract_usage_le (g : KingGame) (seat : Fin 4) (req : Contract)
    (h : ∀ c, g.globalContractUsage c ≤ 2) :
    ∀ c, ((g.selectContract seat req).2).globalContractUsage c ≤ 2 := by
  intro c
  unfold KingGame.selectContract
  split
  · exact h c
  next hcan =>
    have hlt : g.globalContractUsage req < 2 := by
      cases req with
      | penalty n => exact (canSelect_none_penalty g seat n hcan).2
      | trump s => exact (canSelect_none_trump g seat s hcan).2
    dsimp only
    by_cases hc2 : c = req
    · subst hc2
      rw [Function.update_same]
      omega
    · rw [Function.update_noteq hc2]
      exact h c

/-- C2: along every reachable King trace each individual contract is selected
at most twice (`globalContractUsage ≤ 2` everywhere), and a selection only
succeeds while the selector's per-kind quota (3 penalties / 2 trumps) and the
contract's global cap of 2 are unspent. -/
theorem king_contract_caps :
    (∀ g : KingGame, KReach g → ∀ c : Contract, g.globalContractUsage c ≤ 2) ∧
    (∀ (g : KingGame) (seat : Fin 4) (n : PenaltyName),
      ((g.selectContract seat (.penalty n)).1).success = true →
        (g.contractsUsed seat).1 < 3 ∧ g.globalContractUsage (.penalty n) < 2) ∧
    (∀ (g : KingGame) (seat : Fin 4) (s : Suit),
      ((g.selectContract seat (.trump s)).1).success = true →
        (g.contractsUsed seat).2 < 2 ∧ g.globalContractUsage (.trump s) < 2) := by
  refine ⟨?_, ?_, ?_⟩
  · intro g hg
    induction hg with
    | init seat =>
      intro c
      show (0 : ℕ) ≤ 2
      omega
    | deal deck hr ih =>
      intro c
      rw [deal_usage]
      exact ih c
    | select seat req hr ih =>
      exact selectContract_usage_le _ seat req ih
    | play seat card hr ih =>
      intro c
      rw [playCard_usage]
      exact ih c
    | next deck hr ih =>
      intro c
      rw [startNextGame_usage]
      exact ih c
  · intro g seat n hs
    unfold KingGame.selectContract at hs
    split at hs
    · cases hs
    next hcan => exact canSelect_none_penalty g seat n hcan
  · intro g seat s hs
    unfold KingGame.selectContract at hs
    split at hs
    · cases hs
    next hcan => exact canSelect_none_trump g seat s hcan

/-- Application of `king_contract_caps` at the (reachable) initial state. -/
theorem king_contract_caps_applied :
    (KingGame.init 0).globalContractUsage (Contract.penalty .el) ≤ 2 :=
  king_contract_caps.1 (KingGame.init 0) (KReach.init 0) (Contract.penalty .el)

theorem recordSonIki_fields (g : KingGame) (w : Fin 4) :
    (g.recordSonIki w).tricksPlayed = g.tricksPlayed ∧
      (g.recordSonIki w).hands = g.hands ∧
      (g.recordSonIki w).contract = g.contract ∧
      (g.recordSonIki w).currentTrick = g.currentTrick := by
  unfold KingGame.recordSonIki
  split_ifs <;> exact ⟨rfl, rfl, rfl, rfl⟩

theorem completeTrickCore_fields (g : KingGame) (w : Fin 4) :
    (g.completeTrickCore w).tricksPlayed = g.tricksPlayed + 1 ∧
      (g.completeTrickCore w).hands = g.hands ∧
      (g.completeTrickCore w).contract = g.contract ∧
      (g.completeTrickCore w).currentTrick = g.currentTrick := by
  unfold KingGame.completeTrickCore
  obtain ⟨h1, h2, h3, h4⟩ := recordSonIki_fields
    ({ g with
        tricksTaken := Function.update g.tricksTaken w
          (g.tricksTaken w ++ [g.currentTrick]),
        lastTrick := some g.currentTrick,
        tricksPlayed := g.tricksPlayed + 1 } : KingGame) w
  exact ⟨h1, h2, h3, h4⟩

theorem mem_allRemaining (g : KingGame) (cd : Card) :
    cd ∈ (g.hands 0 ++ g.hands 1 ++ g.hands 2 ++ g.hands 3) ↔
      ∃ i : Fin 4, cd ∈ g.hands i := by
  simp only [List.mem_append]
  constructor
  · rintro (((h | h) | h) | h)
    · exact ⟨0, h⟩
    · exact ⟨1, h⟩
    · exact ⟨2, h⟩
    · exact ⟨3, h⟩
  · rintro ⟨i, h⟩
    fin_cases i
    · exact Or.inl (Or.inl (Or.inl h))
    · exact Or.inl (Or.inl (Or.inr h))
    · exact Or.inl (Or.inr h)
    · exact Or.inr h

theorem checkEarlyGameEnd_iff (g : KingGame) (c : Contract) (h : g.contract = some c)
    (trick : List Play) :
    (g.checkEarlyGameEnd (trick.map (fun t => t.card)) = true) ↔
      kingEarlyEndSpecOn g.hands c trick := by
  unfold KingGame.checkEarlyGameEnd kingEarlyEndSpecOn
  rw [h]
  cases c with
  | trump s => simp
  | penalty n =>
    cases n with
    | rifki =>
      simp only [List.any_eq_true, List.mem_map, Bool.and_eq_true, beq_iff_eq]
      constructor
      · rintro ⟨cd, ⟨pl, hpl, rfl⟩, hs, hr⟩
        refine ⟨pl, hpl, ?_⟩
        cases hcd : pl.card with
        | mk s r =>
          rw [hcd] at hs hr
          simp only at hs hr
          rw [hs, hr]
      · rintro ⟨pl, hpl, hcd⟩
        exact ⟨pl.card, ⟨pl, hpl, rfl⟩, by rw [hcd], by rw [hcd]⟩
    | kupa =>
      rw [List.isEmpty_iff, List.filter_eq_nil_iff]
      constructor
      · intro hall i cd hcd
        have := hall cd ((mem_allRemaining g cd).mpr ⟨i, hcd⟩)
        simpa using this
      · intro hall cd hcd
        obtain ⟨i, hi⟩ := (mem_allRemaining g cd).mp hcd
        simpa using hall i cd hi
    | erkek =>
      rw [List.isEmpty_iff, List.filter_eq_nil_iff]
      constructor
      · intro hall i cd hcd
        have := hall cd ((mem_allRemaining g cd).mpr ⟨i, hcd⟩)
        simp only [Bool.or_eq_true, beq_iff_eq] at this
        push_neg at this
        exact this
      · intro hall cd hcd
        obtain ⟨i, hi⟩ := (mem_allRemaining g cd).mp hcd
        have := hall i cd hi
        simp only [Bool.or_eq_true, beq_iff_eq]
        push_neg
        exact this
    | kiz =>
      rw [List.isEmpty_iff, List.filter_eq_nil_iff]
      constructor
      · intro hall i cd hcd
        have := hall cd ((mem_allRemaining g cd).mpr ⟨i, hcd⟩)
        simpa using this
      · intro hall cd hcd
        obtain ⟨i, hi⟩ := (mem_allRemaining g cd).mp hcd
        simpa using hall i cd hi
    | el => simp
    | sonIki => simp

/-- The end-of-game decision of `completeTrick`, stated over an arbitrary
post-trick state `g2` and the completed trick's plays. -/
theorem completeTrick_end_aux (g2 : KingGame) (w : Fin 4) (cards : List Play)
    (c : Contract) (hc : g2.contract = some c) :
    (((if g2.tricksPlayed = 13 ∨
          g2.checkEarlyGameEnd (cards.map (fun t => t.card)) = true
        then g2.completeGame w
        else (.trickDone w,
          { g2 with currentTrick := [], currentPlayer := w })).1.gameComplete = true) ↔
      (g2.tricksPlayed = 13 ∨ kingEarlyEndSpecOn g2.hands c cards)) := by
  by_cases hcond : (g2.tricksPlayed = 13 ∨
      g2.checkEarlyGameEnd (cards.map (fun t => t.card)) = true)
  · rw [if_pos hcond]
    constructor
    · intro _
      rcases hcond with h13 | he
      · exact Or.inl h13
      · exact Or.inr ((checkEarlyGameEnd_iff g2 c hc cards).mp he)
    · intro _
      rfl
  · rw [if_neg hcond]
    constructor
    · intro hcon
      simp [KOut.gameComplete] at hcon
    · intro hrhs
      exfalso
      apply hcond
      rcases hrhs with h13 | hsp
      · exact Or.inl h13
      · exact Or.inr ((checkEarlyGameEnd_iff g2 c hc cards).mpr hsp)

/-- C8: a completed King trick ends the game exactly when all 13 tricks are
played or the contract-specific early-end condition holds: K♥ just played
under rifki; no hearts (kupa), no kings or jacks (erkek), or no queens (kiz)
left in the four hands; never early for el, sonIki or trump contracts. -/
theorem king_early_termination (g : KingGame) (c : Contract) (h : g.contract = some c) :
    ((g.completeTrick).1.gameComplete = true) ↔
      (g.tricksPlayed + 1 = 13 ∨ kingEarlyEndSpec g c) := by
  unfold KingGame.completeTrick
  dsimp only
  refine (completeTrick_end_aux (g.completeTrickCore _) _ g.currentTrick c ?_).trans ?_
  · rw [(completeTrickCore_fields g _).2.2.1]
    exact h
  · rw [(completeTrickCore_fields g _).1, (completeTrickCore_fields g _).2.1]
    rfl

/-- Application of `king_early_termination` at a concrete rifki trick
containing the K♥. -/
theorem king_early_termination_applied :
    kingRifkiState.contract = some (Contract.penalty .rifki) ∧
      (((kingRifkiState.completeTrick).1.gameComplete = true) ↔
        (kingRifkiState.tricksPlayed + 1 = 13 ∨
          kingEarlyEndSpec kingRifkiState (Contract.penalty .rifki))) :=
  ⟨rfl, king_early_termination kingRifkiState (Contract.penalty .rifki) rfl⟩

end Kalpler
